import Mathlib

/-!
# autorestic: configuration and option resolution (`internal/config.go`)

A shallow embedding of the functions of `internal/config.go` that load, check
and save the configuration and resolve options, selections and paths,
followed by the properties proved about them.

Conventions of the embedding:

* a Go `map[string]T` is a `GoMap T`: its entries, with pairwise distinct keys,
  listed in the order in which a `range` statement visits them (Go leaves that
  order unspecified, so every statement quantifies over all such lists); where
  one call ranges over the same map twice, as `getOptions` does for the key
  `all`, `getOptionsVisiting` gives every `range` an order of its own;
* a Go `[]string` is a `List String` (a nil slice and an empty slice are both `[]`);
* a Go `error` is an `Option String` carrying the message, `none` being `nil`;
* a `*Config` is an `Option Config`, `none` being the nil pointer, and a
  function that dereferences it returns `none` where the Go code panics.
-/

namespace Autorestic

/-! ## Go runtime and library pieces used by the source -/

/-- A Go `map[string]T`: entries in visiting order, keys pairwise distinct. -/
structure GoMap (α : Type) where
  entries : List (String × α)
  nodupKeys : (entries.map Prod.fst).Nodup

/-- The nil (or empty) map. -/
def GoMap.empty {α : Type} : GoMap α := ⟨[], List.nodup_nil⟩

/-- The keys of a map, in visiting order. -/
def GoMap.keys {α : Type} (m : GoMap α) : List String := m.entries.map Prod.fst

/-- Lookup `m[k]` in the comma-ok form. -/
def GoMap.get? {α : Type} (m : GoMap α) (k : String) : Option α :=
  (m.entries.find? (fun e => e.1 == k)).map Prod.snd

/-- A Go `error` value: `none` is `nil`, `some msg` an error with that message. -/
abbrev GoError := Option String

/-- A dynamically typed option value (`interface{}`), as the YAML decoder
produces it: a boolean, an integer, a string, or a value of any other dynamic
type, which is carried with the text `fmt.Sprint` prints for it. -/
inductive Value where
  | bool (b : Bool)
  | int (i : Int)
  | str (s : String)
  | other (text : String)
  deriving DecidableEq, Repr

/-- The type assertion `value.(bool)`: the pair `(asBool, ok)`. -/
def Value.assertBool : Value → Bool × Bool
  | .bool b => (b, true)
  | _ => (false, false)

/-- Go `fmt.Sprint(value)` on one operand. -/
def Sprint : Value → String
  | .bool true => "true"
  | .bool false => "false"
  | .int i => toString i
  | .str s => s
  | .other text => text

/-- Go `strings.HasPrefix(s, pre)`. -/
def HasPrefix (s pre : String) : Bool := pre.data.isPrefixOf s.data

/-- Go `strings.TrimPrefix(s, pre)`. -/
def TrimPrefix (s pre : String) : String :=
  if HasPrefix s pre then String.mk (s.data.drop pre.data.length) else s

/-! ## Data model (`internal/config.go`, lines 25-33) -/

/-- The Go type `OptionMap`, `map[string][]interface{}`. -/
abbrev OptionMap := GoMap (List Value)

/-- The Go type `Options`, `map[string]OptionMap`. -/
abbrev Options := GoMap OptionMap

/-- Modelled from the spec: the `Hooks` record of a Location (declared in
`internal/location.go`): four ordered command lists. -/
structure Hooks where
  Before : List String
  After : List String
  Success : List String
  Failure : List String

/-- Modelled from the spec: the type `Backend` (declared in
`internal/backend.go`): a name taken from the map key, a type, a path, an
environment mapping and per-command options. -/
structure Backend where
  name : String
  Type_ : String
  Path : String
  Env : GoMap String
  Options : Options

/-- Modelled from the spec: the type `Location` (declared in
`internal/location.go`): a name taken from the map key, source paths, target
backend references, a cron expression, hooks and per-command options. -/
structure Location where
  name : String
  From : List String
  To : List String
  Cron : String
  Hooks : Hooks
  Options : Options

/-- The Go type `Config`. -/
structure Config where
  Extras : Option Value
  Locations : GoMap Location
  Backends : GoMap Backend
  Global : Options

/-! ## Option resolution (`internal/config.go`, lines 245-288) -/

/-- The function `optionToString`. -/
def optionToString (option : String) : String :=
  if !HasPrefix option "-" then "--" ++ option else option

/-- The body of the inner loop of `appendOptionsToSlice` for one `value` of `key`. -/
def appendValue (key : String) (str : List String) (value : Value) : List String :=
  let (asBool, ok) := value.assertBool
  if ok && asBool then
    str ++ [optionToString key]
  else
    str ++ [optionToString key, Sprint value]

/-- The function `appendOptionsToSlice`; the slice behind the pointer `str` is
passed in and the updated slice is returned. -/
def appendOptionsToSlice (str : List String) (options : OptionMap) : List String :=
  options.entries.foldl (fun str kv => kv.2.foldl (appendValue kv.1) str) str

/-- The map index `options[key]`: the zero value (a nil map) when `key` is absent. -/
def Options.index (options : Options) (key : String) : OptionMap :=
  (options.get? key).getD GoMap.empty

/-- The function `getOptions`, every `range` visiting the entries of its map
in the order in which the map lists them. -/
def getOptions (options : Options) (key : String) : List String :=
  let selected : List String := []
  let keys := ["all"]
  let keys := if key != "" then keys ++ [key] else keys
  keys.foldl (fun selected key => appendOptionsToSlice selected (options.index key)) selected

/-- The loops of `appendOptionsToSlice` when `range options` visits the entries
in the order `visit`. -/
def appendVisited (str : List String) (visit : List (String × List Value)) : List String :=
  visit.foldl (fun str kv => kv.2.foldl (appendValue kv.1) str) str

/-- The function `getOptions` with the visiting order of every `range` over a
bucket made explicit: the call of `appendOptionsToSlice` for the scope key at
index `i` of `keys` visits the entries of its bucket in the order
`orders i entries`, a rearrangement of the entries that Go chooses anew at
each `range`. -/
def getOptionsVisiting
    (orders : Nat → List (String × List Value) → List (String × List Value))
    (options : Options) (key : String) : List String :=
  let selected : List String := []
  let keys := ["all"]
  let keys := if key != "" then keys ++ [key] else keys
  keys.enum.foldl
    (fun selected ik => appendVisited selected (orders ik.1 (options.index ik.2).entries))
    selected

/-- The function `combineOptions`; `cfg` is the pointer `GetConfig()` returns,
and the result is `none` when that pointer is nil (the field access panics). -/
def combineOptions (cfg : Option Config) (key : String) (l : Location) (b : Backend) :
    Option (List String) :=
  match cfg with
  | none => none
  | some c =>
    let options : List String := []
    let gFlags := getOptions c.Global key
    let bFlags := getOptions b.Options key
    let lFlags := getOptions l.Options key
    let options := options ++ gFlags
    let options := options ++ bFlags
    let options := options ++ lFlags
    some options

/-! ## Go `strings.Split` and package `path` -/

/-- Splitting a character sequence at every occurrence of `sep`: the pieces
between the separators, in order (one more piece than there are separators). -/
def splitChars (sep : Char) : List Char → List (List Char)
  | [] => [[]]
  | c :: cs =>
    if c = sep then [] :: splitChars sep cs
    else
      match splitChars sep cs with
      | [] => [[c]]
      | piece :: pieces => (c :: piece) :: pieces

/-- Go `strings.Split(s, sep)` for a separator of one character. -/
def Split (s : String) (sep : Char) : List String :=
  (splitChars sep s.data).map String.mk

/-- Go `path.IsAbs(path)`: the path begins with a slash. -/
def IsAbs (path : String) : Bool := path.data.head? == some '/'

/-- The backtracking loop of `path.Clean` for a `..` element, run after `out.w--`:
`for out.w > dotdot && out.index(out.w) != '/' { out.w-- }`, from the write
index `w`; the result is the final write index. -/
def backtrackTo (out : List Char) (dotdot : Nat) : Nat → Nat
  | 0 => 0
  | w + 1 =>
    if w + 1 > dotdot ∧ out.getD (w + 1) '/' ≠ '/' then backtrackTo out dotdot w else w + 1

/-- The main loop of Go `path.Clean`: `rest` is the unread input `path[r:]`,
`out` the bytes written so far (`buf[:w]`), `dotdot` the index where `..` must
stop. Every iteration reads at least one character, so a `fuel` of the length
of `rest` lets the loop run to the end of the input. -/
def cleanLoop (rooted : Bool) : Nat → List Char → List Char → Nat → List Char
  | 0, _, out, _ => out
  | fuel + 1, rest, out, dotdot =>
    match rest with
    | [] => out
    | c :: t =>
      if c = '/' then
        -- empty path element
        cleanLoop rooted fuel t out dotdot
      else if c = '.' ∧ (t = [] ∨ t.head? = some '/') then
        -- . element
        cleanLoop rooted fuel t out dotdot
      else if c = '.' ∧ t.head? = some '.' ∧ (t.tail = [] ∨ t.tail.head? = some '/') then
        -- .. element: remove to last /
        if out.length > dotdot then
          cleanLoop rooted fuel t.tail (out.take (backtrackTo out dotdot (out.length - 1))) dotdot
        else if !rooted then
          let out := if out.length > 0 then out ++ ['/'] else out
          let out := out ++ ['.', '.']
          cleanLoop rooted fuel t.tail out out.length
        else
          cleanLoop rooted fuel t.tail out dotdot
      else
        -- real path element: add slash if needed, copy element
        let out :=
          if (rooted ∧ out.length ≠ 1) ∨ (¬ rooted ∧ out.length ≠ 0) then out ++ ['/'] else out
        cleanLoop rooted fuel (rest.dropWhile (fun x => x ≠ '/'))
          (out ++ rest.takeWhile (fun x => x ≠ '/')) dotdot

/-- Go `path.Clean(path)`. The slash and the dot are single bytes that occur in
no multi-byte character, so working on characters agrees with working on bytes. -/
def Clean (path : String) : String :=
  if path = "" then "."
  else
    let rooted := path.data.head? == some '/'
    let out :=
      if rooted then cleanLoop rooted path.data.length path.data.tail ['/'] 1
      else cleanLoop rooted path.data.length path.data [] 0
    -- Turn empty string into "."
    if out.length = 0 then "." else String.mk out

/-- The loop of Go `path.Join` that writes the non-empty elements, separated
by slashes, into `buf`. -/
def joinBuf (buf : List Char) (e : String) : List Char :=
  if buf.length > 0 ∨ e ≠ "" then
    (if buf.length > 0 then buf ++ ['/'] else buf) ++ e.data
  else buf

/-- Go `path.Join(elem...)`. -/
def Join (elem : List String) : String :=
  let size := (elem.map String.length).sum
  if size = 0 then ""
  else Clean (String.mk (elem.foldl joinBuf []))

/-- Go `strings.LastIndexByte(s, c)` on the characters from index `i` on, `acc`
being the last index found so far (`-1` for none). -/
def lastIndexFrom (c : Char) : List Char → Nat → Int → Int
  | [], _, acc => acc
  | x :: xs, i, acc => lastIndexFrom c xs (i + 1) (if x = c then (i : Int) else acc)

/-- Go `path.Dir(path)`: everything up to the final slash, cleaned. -/
def Dir (path : String) : String :=
  let i := lastIndexFrom '/' path.data 0 (-1)
  Clean (String.mk (path.data.take (i + 1).toNat))

/-! ## Path resolution (`internal/config.go`, lines 68-77) -/

/-- The function `GetPathRelativeToConfig`. The two collaborators it calls are
parameters: `configFileUsed` is the string `viper.ConfigFileUsed()` returns and
`homedirDir` the pair `(home, err)` that `homedir.Dir()` returns. -/
def GetPathRelativeToConfig (configFileUsed : String) (homedirDir : String × GoError)
    (p : String) : String × GoError :=
  if IsAbs p then
    (p, none)
  else if HasPrefix p "~" then
    let (home, err) := homedirDir
    (Join [home, TrimPrefix p "~"], err)
  else
    (Join [Dir configFileUsed, p], none)

/-! ## Selection (`internal/config.go`, lines 173-215) -/

/-- The flags of a `cobra.Command` that `GetAllOrSelected` reads: the values
`GetBool("all")`, `GetStringSlice("backend")` and `GetStringSlice("location")`
return (their error results are discarded by the source). -/
structure Command where
  all : Bool
  backend : List String
  location : List String

/-- The loop `for _, s := range selected` of `GetAllOrSelected`: the error of
the first token whose bare name is not in `list`, or `none` when the loop runs
to its end. The inner loop over `list` jumps to `found` exactly when some
`l` equals `splitted[0]`. -/
def checkSelected (backends : Bool) (list : List String) : List String → GoError
  | [] => none
  | s :: rest =>
    let splitted := Split s '@'
    if list.any (fun l => l == splitted.headD "") then
      checkSelected backends list rest
    else if backends then
      some ("invalid backend \"" ++ s ++ "\"")
    else
      some ("invalid location \"" ++ s ++ "\"")

/-- The function `GetAllOrSelected`; `config` is the package variable of that
name, and the result is `none` when it is nil (the field access panics). -/
def GetAllOrSelected (config : Option Config) (cmd : Command) (backends : Bool) :
    Option (List String × GoError) :=
  match config with
  | none => none
  | some config =>
    let list : List String :=
      if backends then
        config.Backends.entries.foldl (fun list e => list ++ [e.1]) []
      else
        config.Locations.entries.foldl (fun list e => list ++ [e.1]) []
    let all := cmd.all
    if all then
      some (list, none)
    else
      let selected := if backends then cmd.backend else cmd.location
      match checkSelected backends list selected with
      | some err => some ([], some err)
      | none =>
        if selected.length = 0 then
          some (selected, some "nothing selected, aborting")
        else
          some (selected, none)

/-! ## Validation (`internal/config.go`, lines 150-171) -/

/-- An entity on which `validate` has been called. -/
inductive Entity where
  | backend (name : String)
  | location (name : String)
  deriving DecidableEq

/-- The loop `for name, x := range m { x.name = name; if err := x.validate();
err != nil { return err } }` of `CheckConfig` over the entries of a map:
`setName` is the assignment `x.name = name`, `validate` the method
`validate`, `tag` the kind of the entity. The result is the error returned
from inside the loop (`none` when the loop runs to its end) and the log of
the entities validated so far, in call order. -/
def validateLoop {α : Type} (setName : α → String → α) (validate : α → GoError)
    (tag : String → Entity) : List (String × α) → List Entity → GoError × List Entity
  | [], log => (none, log)
  | (name, x) :: rest, log =>
    let x := setName x name
    match validate x with
    | some err => (some err, log ++ [tag name])
    | none => validateLoop setName validate tag rest (log ++ [tag name])

/-- The function `CheckConfig`. Its collaborators are parameters: `c` is the
pointer `GetConfig()` returns, `resticCallable` the result of
`CheckIfResticIsCallable()`, `RESTIC_BIN` the constant of that name, and
`validateBackend`, `validateLocation` the methods `Backend.validate` and
`Location.validate`. The result is the error returned together with the log of
the entities on which `validate` was called, in call order. -/
def CheckConfig (c : Option Config) (resticCallable : Bool) (RESTIC_BIN : String)
    (validateBackend : Backend → GoError) (validateLocation : Location → GoError) :
    GoError × List Entity :=
  match c with
  | none => (some "config could not be loaded/found", [])
  | some c =>
    if !resticCallable then
      (some (RESTIC_BIN
        ++ " was not found. Install either with \"autorestic install\" or manually"), [])
    else
      match validateLoop (fun backend name => { backend with name := name }) validateBackend
          Entity.backend c.Backends.entries [] with
      | (some err, log) => (some err, log)
      | (none, log) =>
        validateLoop (fun location name => { location with name := name }) validateLocation
          Entity.location c.Locations.entries log

/-! ## Loading (`internal/config.go`, lines 35-66) -/

/-- What the collaborators of `GetConfig` answer when they are called:
`readOk` says that `viper.ReadInConfig()` returns a nil error, `cronLean` is
the variable `CRON_LEAN`, and `parsed` is the outcome of
`viper.UnmarshalExact(config)`: `some c` when it fills the configuration with
`c` and returns nil, `none` when it returns an error. -/
structure World where
  readOk : Bool
  cronLean : Bool
  parsed : Option Config

/-- The state of the process that `GetConfig` reads and writes: the guard
`once` (`onceDone` after it has fired), the package variable `config`, and the
number of times each abstract step has run: `viper.ReadInConfig` (`reads`),
`godotenv.Load` (`envLoads`) and `viper.UnmarshalExact` (`parses`). -/
structure Proc where
  onceDone : Bool
  config : Option Config
  reads : Nat
  envLoads : Nat
  parses : Nat

/-- The outcome of one call of `GetConfig`: it returns a pointer, or the
process ends in `os.Exit(1)`. -/
inductive Outcome where
  | returned (cfg : Option Config) (st : Proc)
  | exited (st : Proc)

/-- The value `&Config{}`: a configuration with every field at its zero value. -/
def zeroConfig : Config :=
  { Extras := none, Locations := GoMap.empty, Backends := GoMap.empty, Global := GoMap.empty }

/-- The function `GetConfig` as a step on the process state. -/
def GetConfig (w : World) (st : Proc) : Outcome :=
  if st.config.isNone then
    if st.onceDone then
      -- once.Do does not run its argument again
      Outcome.returned st.config st
    else
      let st := { st with onceDone := true }
      let st := { st with reads := st.reads + 1 }
      if w.readOk then
        let st := if !w.cronLean then { st with envLoads := st.envLoads + 1 } else st
        let st := { st with config := some zeroConfig }
        let st := { st with parses := st.parses + 1 }
        match w.parsed with
        | some c =>
          let st := { st with config := some c }
          Outcome.returned st.config st
        | none => Outcome.exited st
      else
        Outcome.returned st.config st
  else
    Outcome.returned st.config st

/-- A sequence of calls of `GetConfig` in one process, one `World` per call:
the pointers returned, in call order, and the final state. The sequence ends
early when a call ends the process. -/
def callsOfGetConfig : List World → Proc → List (Option Config) × Proc
  | [], st => ([], st)
  | w :: ws, st =>
    match GetConfig w st with
    | Outcome.returned cfg st2 =>
      let r := callsOfGetConfig ws st2
      (cfg :: r.1, r.2)
    | Outcome.exited st2 => ([], st2)

/-- The state of a process at its start. -/
def initialProc : Proc :=
  { onceDone := false, config := none, reads := 0, envLoads := 0, parses := 0 }

/-! ## Saving (`internal/config.go`, lines 232-243) -/

/-- A file system: the content of each existing file, by path. -/
abbrev FS := List (String × String)

/-- A value stored in the persistence layer by `viper.Set`. -/
inductive Setting where
  | backends (m : GoMap Backend)
  | locations (m : GoMap Location)
  | other (v : Value)

/-- The state `SaveConfig` works on: the file system and the settings of the
persistence layer, by key. -/
structure Sys where
  fs : FS
  settings : List (String × Setting)

/-- The call `viper.Set(key, value)`: the value overrides any earlier one. -/
def viperSet (key : String) (value : Setting) (settings : List (String × Setting)) :
    List (String × Setting) :=
  (key, value) :: settings.filter (fun e => e.1 != key)

/-- The method `SaveConfig`. Its collaborators are parameters: `file` is the
string `viper.ConfigFileUsed()` returns, `CopyFile` the function of that name
(from a file system, a source and a destination path to the file system it
leaves and its error), and `WriteConfig` the call `viper.WriteConfig()` (from
the settings and the file system to the file system it leaves and its error).
The result is `none` when the receiver `c` is nil and its fields are read. -/
def SaveConfig (file : String) (CopyFile : FS → String → String → FS × GoError)
    (WriteConfig : List (String × Setting) → FS → FS × GoError)
    (c : Option Config) (s : Sys) : Option (GoError × Sys) :=
  match CopyFile s.fs file (file ++ ".old") with
  | (fs, some err) => some (some err, { s with fs := fs })
  | (fs, none) =>
    match c with
    | none => none
    | some c =>
      let settings := viperSet "backends" (Setting.backends c.Backends) s.settings
      let settings := viperSet "locations" (Setting.locations c.Locations) settings
      let r := WriteConfig settings fs
      some (r.2, { fs := r.1, settings := settings })

/-! ## Vocabulary of the statements -/

/-- The map with the single entry `k ↦ v`. -/
def GoMap.single {α : Type} (k : String) (v : α) : GoMap α :=
  ⟨[(k, v)], List.nodup_singleton k⟩

/-- The tokens the loops of `appendOptionsToSlice` write for a sequence of
entries, starting from an empty slice. -/
def tokens (entries : List (String × List Value)) : List String :=
  entries.foldl (fun str kv => kv.2.foldl (appendValue kv.1) str) []

/-- The candidate names of a selection: the Backend names in backend mode, the
Location names in location mode. -/
def candidates (c : Config) (backends : Bool) : List String :=
  if backends then c.Backends.keys else c.Locations.keys

/-- The requested names of a selection: the `backend` flag in backend mode, the
`location` flag in location mode. -/
def requested (cmd : Command) (backends : Bool) : List String :=
  if backends then cmd.backend else cmd.location

/-- The bare name of a token: the text before its first `@`. -/
def bareName (s : String) : String :=
  String.mk (s.data.takeWhile (fun x => x ≠ '@'))

/-- A Backend that carries nothing but its options. -/
def backendWith (o : Options) : Backend :=
  { name := "b", Type_ := "local", Path := "/backup", Env := GoMap.empty, Options := o }

/-- A Location that carries nothing but its options. -/
def locationWith (o : Options) : Location :=
  { name := "l", From := ["/data"], To := ["b"], Cron := "",
    Hooks := { Before := [], After := [], Success := [], Failure := [] }, Options := o }

/-- A configuration that carries nothing but its global options. -/
def configWith (o : Options) : Config :=
  { Extras := none, Locations := GoMap.empty, Backends := GoMap.empty, Global := o }

/-- A configuration with one Backend `a` and one Location `home`. -/
def sampleConfig : Config :=
  { Extras := none,
    Locations := GoMap.single "home" (locationWith GoMap.empty),
    Backends := GoMap.single "a" (backendWith GoMap.empty),
    Global := GoMap.empty }

/-- Modelled from the spec: the method `Backend.validate` (defined in
`internal/backend.go`), which fails iff `type` or `path` is empty, with an
error that names the Backend and the violated constraint. -/
def Backend.validate (b : Backend) : GoError :=
  if b.Type_ = "" then some ("Backend \"" ++ b.name ++ "\" has no \"type\"")
  else if b.Path = "" then some ("Backend \"" ++ b.name ++ "\" has no \"path\"")
  else none

/-- Modelled from the spec: the method `Location.validate` (defined in
`internal/location.go`), which fails iff `From` is empty or some entry of
`To`, less its `@` qualifier, is not a key of `backends`, with an error that
names the Location and the violated constraint. -/
def Location.validate (backends : GoMap Backend) (l : Location) : GoError :=
  if l.From = [] then some ("Location \"" ++ l.name ++ "\" is missing \"from\" key")
  else
    match l.To.find? (fun target => !(backends.keys.contains (bareName target))) with
    | some target =>
      some ("invalid backend \"" ++ target ++ "\" in location \"" ++ l.name ++ "\"")
    | none => none

/-- A Backend entry that validates. -/
def goodBackend : Backend :=
  { name := "", Type_ := "local", Path := "/backup", Env := GoMap.empty, Options := GoMap.empty }

/-- A Backend entry without a type. -/
def badBackend : Backend :=
  { name := "", Type_ := "", Path := "/other", Env := GoMap.empty, Options := GoMap.empty }

/-- A Location entry without a source path. -/
def badLocation : Location :=
  { name := "", From := [], To := ["good"], Cron := "",
    Hooks := { Before := [], After := [], Success := [], Failure := [] },
    Options := GoMap.empty }

/-- A configuration with the Backends `good` and `bad`, of which `bad` has no
type, and one Location `docs` that has no source path. -/
def brokenConfig : Config :=
  { Extras := none,
    Locations := GoMap.single "docs" badLocation,
    Backends := ⟨[("good", goodBackend), ("bad", badBackend)], by decide⟩,
    Global := GoMap.empty }

/-- The configuration `brokenConfig` with its Backend `bad` removed. -/
def brokenLocationConfig : Config :=
  { Extras := none,
    Locations := GoMap.single "docs" badLocation,
    Backends := GoMap.single "good" goodBackend,
    Global := GoMap.empty }

/-- Options with the buckets `all: {x: [1]}` and `backup: {tag: [a]}`. -/
def sampleOptions : Options :=
  ⟨[("all", GoMap.single "x" [Value.int 1]), ("backup", GoMap.single "tag" [Value.str "a"])],
    by decide⟩

/-- The process state an outcome of `GetConfig` leaves. -/
def Outcome.state : Outcome → Proc
  | Outcome.returned _ st => st
  | Outcome.exited st => st

/-- What the collaborators answer when the configuration file cannot be read. -/
def unreadableWorld : World := { readOk := false, cronLean := false, parsed := none }

/-- What the collaborators answer when the file is read and parses to `sampleConfig`. -/
def loadableWorld : World := { readOk := true, cronLean := false, parsed := some sampleConfig }

/-- A `CopyFile` that fails and leaves the file system as it was. -/
def failingCopy (fs : FS) (_from _to : String) : FS × GoError :=
  (fs, some "no space left on device")

/-- A `WriteConfig` that overwrites the file `autorestic.yml`. -/
def sampleWrite (_settings : List (String × Setting)) (fs : FS) : FS × GoError :=
  (("autorestic.yml", "backends: \x7b\x7d") :: fs.filter (fun e => e.1 != "autorestic.yml"), none)

/-- A system whose file system holds the configuration file only. -/
def sampleSys : Sys :=
  { fs := [("autorestic.yml", "locations: \x7b\x7d")], settings := [] }

/-- Options whose bucket `all` holds the two flags `a: [1]` and `b: [2]`. -/
def twoFlagOptions : Options :=
  GoMap.single "all" ⟨[("a", [Value.int 1]), ("b", [Value.int 2])], by decide⟩

/-- Visiting orders in which every `range` follows the order of the map. -/
def storedOrder (_i : Nat) (entries : List (String × List Value)) :
    List (String × List Value) :=
  entries

/-- Visiting orders in which the second `range` of a call runs backwards. -/
def secondReversed (i : Nat) (entries : List (String × List Value)) :
    List (String × List Value) :=
  if i = 1 then entries.reverse else entries

/-! ## Lemmas -/

/-- The inner loop of `appendOptionsToSlice` only appends to the slice it is given. -/
theorem foldl_appendValue (key : String) (values : List Value) (str : List String) :
    values.foldl (appendValue key) str = str ++ values.foldl (appendValue key) [] := by
  induction values using List.reverseRecOn generalizing str with
  | nil => simp
  | append_singleton vs v ih =>
    simp only [List.foldl_append, List.foldl_cons, List.foldl_nil]
    rw [ih]
    unfold appendValue
    split
    split <;> simp

/-- The loops of `appendOptionsToSlice` only append to the slice they are given. -/
theorem foldl_entries (entries : List (String × List Value)) (str : List String) :
    entries.foldl (fun str kv => kv.2.foldl (appendValue kv.1) str) str
      = str ++ tokens entries := by
  induction entries using List.reverseRecOn generalizing str with
  | nil => simp [tokens]
  | append_singleton es e ih =>
    unfold tokens
    simp only [List.foldl_append, List.foldl_cons, List.foldl_nil]
    rw [ih, foldl_appendValue]
    conv_rhs => rw [foldl_appendValue]
    simp [tokens]

/-- The tokens of a sequence of entries are those of its parts, in order. -/
theorem tokens_append (xs ys : List (String × List Value)) :
    tokens (xs ++ ys) = tokens xs ++ tokens ys := by
  unfold tokens
  rw [List.foldl_append, foldl_entries]
  rfl

/-- The tokens of a sequence of entries start with those of its first entry. -/
theorem tokens_cons (kv : String × List Value) (ys : List (String × List Value)) :
    tokens (kv :: ys) = kv.2.foldl (appendValue kv.1) [] ++ tokens ys := by
  have h := tokens_append [kv] ys
  simpa [tokens] using h

/-- The slice `appendOptionsToSlice` leaves is the given slice followed by the tokens of the map. -/
theorem appendOptionsToSlice_eq (str : List String) (m : OptionMap) :
    appendOptionsToSlice str m = str ++ tokens m.entries := by
  unfold appendOptionsToSlice
  exact foldl_entries _ _

/-- The loop that collects the names of a map yields its keys in visiting order. -/
theorem foldl_names {α : Type} (entries : List (String × α)) (acc : List String) :
    entries.foldl (fun list e => list ++ [e.1]) acc = acc ++ entries.map Prod.fst := by
  induction entries generalizing acc with
  | nil => simp
  | cons e es ih => simp [ih]

theorem GoMap.get?_isSome {α : Type} (m : GoMap α) (k : String) :
    (m.get? k).isSome = true ↔ k ∈ m.keys := by
  unfold GoMap.get? GoMap.keys
  rw [Option.isSome_map', List.find?_isSome, List.mem_map]
  constructor
  · rintro ⟨e, he, hk⟩
    exact ⟨e, he, by simpa using hk⟩
  · rintro ⟨e, he, hk⟩
    exact ⟨e, he, by simpa using hk⟩

/-- The first piece of a split is the text before the first separator. -/
theorem splitChars_head (sep : Char) (l : List Char) :
    (splitChars sep l).head? = some (l.takeWhile (fun x => x ≠ sep)) := by
  induction l with
  | nil => simp [splitChars]
  | cons c cs ih =>
    unfold splitChars
    by_cases h : c = sep
    · simp [h]
    · simp only [h, if_false]
      cases hs : splitChars sep cs with
      | nil => simp [hs] at ih
      | cons piece pieces =>
        rw [hs] at ih
        simp at ih
        simp [h, ih]

/-- The expression `splitted[0]` of `GetAllOrSelected` is the bare name of the token. -/
theorem Split_head (s : String) : (Split s '@').headD "" = bareName s := by
  unfold Split bareName
  have h := splitChars_head '@' s.data
  cases hs : splitChars '@' s.data with
  | nil => simp [hs] at h
  | cons piece pieces =>
    rw [hs] at h
    simp at h
    simp [h]

/-- The loop over the requested tokens ends without error iff every bare name is in the list. -/
theorem checkSelected_eq_none (backends : Bool) (list selected : List String) :
    checkSelected backends list selected = none ↔ ∀ s ∈ selected, bareName s ∈ list := by
  induction selected with
  | nil => simp [checkSelected]
  | cons s rest ih =>
    unfold checkSelected
    simp only [Split_head, List.any_eq_true, beq_iff_eq, List.mem_cons, forall_eq_or_imp]
    by_cases h : bareName s ∈ list
    · have h2 : ∃ x, x ∈ list ∧ x = bareName s := ⟨_, h, rfl⟩
      simp [h2, h, ih]
    · have h2 : ¬ ∃ x, x ∈ list ∧ x = bareName s := by
        rintro ⟨x, hx, rfl⟩
        exact h hx
      simp only [h2, if_false, h, false_and, iff_false]
      cases backends <;> simp

/-- The variable `list` of `GetAllOrSelected` holds the candidate names. -/
theorem candidateList (c : Config) (backends : Bool) :
    (if backends then c.Backends.entries.foldl (fun list e => list ++ [e.1]) []
      else c.Locations.entries.foldl (fun list e => list ++ [e.1]) []) = candidates c backends := by
  unfold candidates GoMap.keys
  cases backends <;> simp [foldl_names]

/-- The function `GetAllOrSelected` on a loaded configuration with the `all` flag unset. -/
theorem GetAllOrSelected_unset (c : Config) (cmd : Command) (backends : Bool)
    (hall : cmd.all = false) :
    GetAllOrSelected (some c) cmd backends
      = match checkSelected backends (candidates c backends) (requested cmd backends) with
        | some err => some ([], some err)
        | none =>
          if (requested cmd backends).length = 0 then
            some (requested cmd backends, some "nothing selected, aborting")
          else
            some (requested cmd backends, none) := by
  simp only [GetAllOrSelected, candidateList, hall]
  rfl

/-- With `all` unset and a non-empty request, an error is returned iff some bare name is no candidate. -/
theorem GetAllOrSelected_error_iff (c : Config) (cmd : Command) (backends : Bool)
    (hall : cmd.all = false) (hne : requested cmd backends ≠ []) :
    (∃ sel msg, GetAllOrSelected (some c) cmd backends = some (sel, some msg))
      ↔ ∃ s ∈ requested cmd backends, bareName s ∉ candidates c backends := by
  have hlen : ¬ (requested cmd backends).length = 0 := by
    simpa [List.length_eq_zero] using hne
  rw [GetAllOrSelected_unset c cmd backends hall]
  cases hc : checkSelected backends (candidates c backends) (requested cmd backends) with
  | none =>
    have h := (checkSelected_eq_none _ _ _).1 hc
    simp only [hlen, if_false]
    constructor
    · rintro ⟨sel, msg, hm⟩
      simp at hm
    · rintro ⟨s, hs, hn⟩
      exact absurd (h s hs) hn
  | some err =>
    constructor
    · intro _
      by_contra hcon
      push_neg at hcon
      have := (checkSelected_eq_none backends _ _).2 hcon
      rw [hc] at this
      cases this
    · intro _
      exact ⟨[], err, rfl⟩

/-- With `all` unset and a non-empty request, the request is accepted iff every bare name is a candidate. -/
theorem GetAllOrSelected_ok_iff (c : Config) (cmd : Command) (backends : Bool)
    (hall : cmd.all = false) (hne : requested cmd backends ≠ []) :
    GetAllOrSelected (some c) cmd backends = some (requested cmd backends, none)
      ↔ ∀ s ∈ requested cmd backends, bareName s ∈ candidates c backends := by
  have hlen : ¬ (requested cmd backends).length = 0 := by
    simpa [List.length_eq_zero] using hne
  rw [GetAllOrSelected_unset c cmd backends hall]
  cases hc : checkSelected backends (candidates c backends) (requested cmd backends) with
  | none =>
    have h := (checkSelected_eq_none _ _ _).1 hc
    simp only [hlen, if_false, true_iff]
    exact h
  | some err =>
    constructor
    · intro h
      simp at h
    · intro h
      have := (checkSelected_eq_none backends _ _).2 h
      rw [hc] at this
      cases this

/-! ## Option resolution: scope order and boolean values -/

/-- C1: for a loaded configuration, `combineOptions(key, l, b)` is the
concatenation of `getOptions` on the global options, on the options of the
Backend and on the options of the Location, in that order; with global
`{all:{x:[1]}}`, backend `{all:{x:[2]}}` and location `{all:{x:[3]}}` the
result for `"cmd"` is `--x 1 --x 2 --x 3`. -/
theorem combineOptions_global_backend_location :
    (∀ (c : Config) (key : String) (l : Location) (b : Backend),
      combineOptions (some c) key l b
        = some (getOptions c.Global key ++ getOptions b.Options key ++ getOptions l.Options key))
    ∧ combineOptions
        (some (configWith (GoMap.single "all" (GoMap.single "x" [Value.int 1])))) "cmd"
        (locationWith (GoMap.single "all" (GoMap.single "x" [Value.int 3])))
        (backendWith (GoMap.single "all" (GoMap.single "x" [Value.int 2])))
      = some ["--x", "1", "--x", "2", "--x", "3"] := by
  refine ⟨?_, by decide⟩
  intro c key l b
  simp [combineOptions]

/-- C2, as stated, fails: for the map `{q:[false]}` and an empty slice,
`appendOptionsToSlice` writes the two tokens `--q false`; the slice is not
left unchanged. -/
theorem appendOptionsToSlice_false_not_silent :
    appendOptionsToSlice [] (GoMap.single "q" [Value.bool false]) = ["--q", "false"]
    ∧ appendOptionsToSlice [] (GoMap.single "q" [Value.bool false]) ≠ [] := by
  decide

/-- C2, amended: in an OptionMap where the key `q` has the single value
`false`, `appendOptionsToSlice` writes for that value the normalised flag
followed by the text `false`, after the tokens of the entries visited before
`q` and before the tokens of the entries visited after it. -/
theorem appendOptionsToSlice_false (m : OptionMap) (q : String)
    (before after : List (String × List Value)) (str : List String)
    (h : m.entries = before ++ (q, [Value.bool false]) :: after) :
    appendOptionsToSlice str m
      = str ++ tokens before ++ [optionToString q, "false"] ++ tokens after := by
  rw [appendOptionsToSlice_eq, h, tokens_append, tokens_cons]
  simp [appendValue, Value.assertBool, Sprint]

/-- Witness of C2 amended: `{q:[false]}` appended to `["backup"]` gives
`backup --q false`. -/
theorem appendOptionsToSlice_false_witness :
    appendOptionsToSlice ["backup"] (GoMap.single "q" [Value.bool false])
      = ["backup"] ++ tokens [] ++ [optionToString "q", "false"] ++ tokens []
    ∧ appendOptionsToSlice ["backup"] (GoMap.single "q" [Value.bool false])
      = ["backup", "--q", "false"] :=
  ⟨appendOptionsToSlice_false (GoMap.single "q" [Value.bool false]) "q" [] [] ["backup"] rfl,
    by decide⟩

/-- C3: in an OptionMap where the key `q` has the single value `true`,
`appendOptionsToSlice` writes for that value exactly one token, the normalised
flag `optionToString q`, with no value token: the output is the input slice,
the tokens of the entries visited before `q`, that one token, and the tokens
of the entries visited after `q`. -/
theorem appendOptionsToSlice_true (m : OptionMap) (q : String)
    (before after : List (String × List Value)) (str : List String)
    (h : m.entries = before ++ (q, [Value.bool true]) :: after) :
    appendOptionsToSlice str m
      = str ++ tokens before ++ [optionToString q] ++ tokens after := by
  rw [appendOptionsToSlice_eq, h, tokens_append, tokens_cons]
  simp [appendValue, Value.assertBool]

/-- Witness of C3: `{q:[true]}` yields `["--q"]`. -/
theorem appendOptionsToSlice_true_witness :
    appendOptionsToSlice [] (GoMap.single "q" [Value.bool true])
      = [] ++ tokens [] ++ [optionToString "q"] ++ tokens []
    ∧ appendOptionsToSlice [] (GoMap.single "q" [Value.bool true]) = ["--q"] :=
  ⟨appendOptionsToSlice_true (GoMap.single "q" [Value.bool true]) "q" [] [] [] rfl,
    by decide⟩

/-! ## Selection -/

/-- C4: with the `all` flag set, `GetAllOrSelected` returns, without error,
the list of candidate names, whatever the requested names are (`bs` in backend
mode, `ls` in location mode, existing or not, empty or not); that list holds
every key of the Backend map (of the Location map in location mode) once and
nothing else. -/
theorem GetAllOrSelected_all (c : Config) (bs ls : List String) (backends : Bool) :
    GetAllOrSelected (some c) ⟨true, bs, ls⟩ backends = some (candidates c backends, none)
    ∧ (candidates c backends).Nodup
    ∧ (∀ name, name ∈ candidates c true ↔ (c.Backends.get? name).isSome = true)
    ∧ (∀ name, name ∈ candidates c false ↔ (c.Locations.get? name).isSome = true) := by
  refine ⟨?_, ?_, ?_, ?_⟩
  · simp only [GetAllOrSelected, candidateList]
    simp
  · cases backends
    · exact c.Locations.nodupKeys
    · exact c.Backends.nodupKeys
  · intro name
    rw [GoMap.get?_isSome]
    simp [candidates]
  · intro name
    rw [GoMap.get?_isSome]
    simp [candidates]

/-- C5: with the `all` flag unset and a non-empty requested list,
`GetAllOrSelected` returns an error iff the bare name (the text before the
first `@`) of some requested token is not a candidate; in particular a request
`[x]` fails iff the bare name of `x` is not a candidate, and the token `a@b@c`
is accepted iff `a` is a candidate. -/
theorem GetAllOrSelected_fails_iff :
    (∀ (c : Config) (cmd : Command) (backends : Bool),
      cmd.all = false → requested cmd backends ≠ [] →
      ((∃ sel msg, GetAllOrSelected (some c) cmd backends = some (sel, some msg))
        ↔ ∃ s ∈ requested cmd backends, bareName s ∉ candidates c backends))
    ∧ (∀ (c : Config) (x : String) (backends : Bool),
      ((∃ sel msg, GetAllOrSelected (some c) ⟨false, [x], [x]⟩ backends = some (sel, some msg))
        ↔ bareName x ∉ candidates c backends))
    ∧ (∀ (c : Config) (backends : Bool),
      (GetAllOrSelected (some c) ⟨false, ["a@b@c"], ["a@b@c"]⟩ backends
          = some (["a@b@c"], none)
        ↔ "a" ∈ candidates c backends)) := by
  refine ⟨GetAllOrSelected_error_iff, ?_, ?_⟩
  · intro c x backends
    have hreq : requested ⟨false, [x], [x]⟩ backends = [x] := by
      cases backends <;> rfl
    rw [GetAllOrSelected_error_iff c ⟨false, [x], [x]⟩ backends rfl (by simp [hreq]), hreq]
    simp
  · intro c backends
    have hreq : requested ⟨false, ["a@b@c"], ["a@b@c"]⟩ backends = ["a@b@c"] := by
      cases backends <;> rfl
    have h := GetAllOrSelected_ok_iff c ⟨false, ["a@b@c"], ["a@b@c"]⟩ backends rfl
      (by simp [hreq])
    rw [hreq] at h
    rw [h]
    have hb : bareName "a@b@c" = "a" := by decide
    simp [hb]

/-- Witness of C5: with the single Backend `a`, the request `["a@prod", "b"]`
in backend mode fails, its token `b` having no candidate. -/
theorem GetAllOrSelected_fails_iff_witness :
    ((∃ sel msg, GetAllOrSelected (some sampleConfig) ⟨false, ["a@prod", "b"], []⟩ true
        = some (sel, some msg))
      ↔ ∃ s ∈ requested ⟨false, ["a@prod", "b"], []⟩ true,
          bareName s ∉ candidates sampleConfig true)
    ∧ GetAllOrSelected (some sampleConfig) ⟨false, ["a@prod", "b"], []⟩ true
        = some ([], some "invalid backend \"b\"") :=
  ⟨GetAllOrSelected_fails_iff.1 sampleConfig ⟨false, ["a@prod", "b"], []⟩ true rfl (by decide),
    by decide⟩

/-- C6: with the `all` flag unset and an empty requested list,
`GetAllOrSelected` returns the error `nothing selected, aborting`, for every
configuration (with or without candidates), in backend mode and in location
mode, whatever the flag of the other mode holds. -/
theorem GetAllOrSelected_nothing_selected :
    (∀ (c : Config) (ls : List String),
      GetAllOrSelected (some c) ⟨false, [], ls⟩ true
        = some ([], some "nothing selected, aborting"))
    ∧ (∀ (c : Config) (bs : List String),
      GetAllOrSelected (some c) ⟨false, bs, []⟩ false
        = some ([], some "nothing selected, aborting")) := by
  constructor
  · intro c ls
    rw [GetAllOrSelected_unset c ⟨false, [], ls⟩ true rfl]
    simp [requested, checkSelected]
  · intro c bs
    rw [GetAllOrSelected_unset c ⟨false, bs, []⟩ false rfl]
    simp [requested, checkSelected]

/-- C7: whenever `GetAllOrSelected` succeeds with the `all` flag unset, the
selection it returns is the requested list itself: same tokens, same order,
duplicates and `@qualifier` suffixes kept. -/
theorem GetAllOrSelected_verbatim (c : Config) (cmd : Command) (backends : Bool)
    (sel : List String) (hall : cmd.all = false)
    (hok : GetAllOrSelected (some c) cmd backends = some (sel, none)) :
    sel = requested cmd backends := by
  rw [GetAllOrSelected_unset c cmd backends hall] at hok
  cases hc : checkSelected backends (candidates c backends) (requested cmd backends) with
  | none =>
    rw [hc] at hok
    by_cases hlen : (requested cmd backends).length = 0
    · simp [hlen] at hok
    · simp [hlen] at hok
      exact hok.symm
  | some err =>
    rw [hc] at hok
    simp at hok

/-- Witness of C7: with the single Backend `a`, the request
`["a@prod", "a", "a@prod"]` succeeds and is returned as it is. -/
theorem GetAllOrSelected_verbatim_witness :
    GetAllOrSelected (some sampleConfig) ⟨false, ["a@prod", "a", "a@prod"], []⟩ true
        = some (["a@prod", "a", "a@prod"], none)
    ∧ ["a@prod", "a", "a@prod"] = requested ⟨false, ["a@prod", "a", "a@prod"], []⟩ true :=
  ⟨by decide,
    GetAllOrSelected_verbatim sampleConfig ⟨false, ["a@prod", "a", "a@prod"], []⟩ true
      ["a@prod", "a", "a@prod"] rfl (by decide)⟩

/-! ## Package `path`: lemmas -/

theorem head?_take {l : List Char} {k : Nat} (hk : 1 ≤ k) : (l.take k).head? = l.head? := by
  cases l with
  | nil => simp
  | cons a as =>
    cases k with
    | zero => omega
    | succ k => simp

theorem head?_append_of_head? {l : List Char} {c : Char} (m : List Char)
    (h : l.head? = some c) : (l ++ m).head? = some c := by
  cases l with
  | nil => simp at h
  | cons a as => simpa using h

/-- Backtracking over a `..` element never goes below `dotdot`. -/
theorem backtrackTo_ge (out : List Char) (dotdot w : Nat) (h : dotdot ≤ w) :
    dotdot ≤ backtrackTo out dotdot w := by
  induction w with
  | zero => simpa [backtrackTo] using h
  | succ w ih =>
    unfold backtrackTo
    split
    · rename_i hc
      exact ih (by omega)
    · exact h

/-- For a rooted path the output of the loop of `path.Clean` keeps its leading slash. -/
theorem cleanLoop_rooted (fuel : Nat) : ∀ (rest out : List Char),
    out.head? = some '/' → (cleanLoop true fuel rest out 1).head? = some '/' := by
  induction fuel with
  | zero => intro rest out h; simpa [cleanLoop] using h
  | succ fuel ih =>
    intro rest out h
    unfold cleanLoop
    cases rest with
    | nil => simpa using h
    | cons c t =>
      simp only []
      by_cases h1 : c = '/'
      · rw [if_pos h1]
        exact ih _ _ h
      rw [if_neg h1]
      by_cases h2 : c = '.' ∧ (t = [] ∨ t.head? = some '/')
      · rw [if_pos h2]
        exact ih _ _ h
      rw [if_neg h2]
      by_cases h3 : c = '.' ∧ t.head? = some '.' ∧ (t.tail = [] ∨ t.tail.head? = some '/')
      · rw [if_pos h3]
        by_cases h4 : out.length > 1
        · rw [if_pos h4]
          apply ih
          rw [head?_take]
          · exact h
          · apply backtrackTo_ge
            omega
        · rw [if_neg h4]
          simp only [Bool.not_true, Bool.false_eq_true, if_false]
          exact ih _ _ h
      rw [if_neg h3]
      apply ih
      apply head?_append_of_head?
      split_ifs
      · exact head?_append_of_head? _ h
      · exact h

theorem head?_takeWhile_cons (c : Char) (t : List Char) (h : c ≠ '/') :
    ((c :: t).takeWhile (fun x => x ≠ '/')).head? = some c := by
  simp [List.takeWhile_cons, h]

/-- For a path that is not rooted the output of the loop of `path.Clean` never starts with a slash. -/
theorem cleanLoop_unrooted (fuel : Nat) : ∀ (rest out : List Char) (dotdot : Nat),
    out.head? ≠ some '/' → (cleanLoop false fuel rest out dotdot).head? ≠ some '/' := by
  induction fuel with
  | zero => intro rest out dotdot h; simpa [cleanLoop] using h
  | succ fuel ih =>
    intro rest out dotdot h
    unfold cleanLoop
    cases rest with
    | nil => simpa using h
    | cons c t =>
      simp only []
      by_cases h1 : c = '/'
      · rw [if_pos h1]
        exact ih _ _ _ h
      rw [if_neg h1]
      by_cases h2 : c = '.' ∧ (t = [] ∨ t.head? = some '/')
      · rw [if_pos h2]
        exact ih _ _ _ h
      rw [if_neg h2]
      by_cases h3 : c = '.' ∧ t.head? = some '.' ∧ (t.tail = [] ∨ t.tail.head? = some '/')
      · rw [if_pos h3]
        by_cases h4 : out.length > dotdot
        · rw [if_pos h4]
          apply ih
          cases hk : backtrackTo out dotdot (out.length - 1) with
          | zero => simp
          | succ k => rw [head?_take (by omega)]; exact h
        · rw [if_neg h4]
          simp only [Bool.not_false, if_true]
          apply ih
          cases out with
          | nil => simp
          | cons a as => simpa using h
      rw [if_neg h3]
      apply ih
      cases out with
      | nil =>
        simp only [List.length_nil, ne_eq, not_true_eq_false, and_false, or_false,
          Bool.false_eq_true, false_and, if_false, List.nil_append]
        rw [head?_takeWhile_cons c t h1]
        simpa using h1
      | cons a as =>
        split_ifs <;> simpa using h

theorem mk_ne_empty (out : List Char) (h : ¬ out.length = 0) : String.mk out ≠ "" := by
  intro hc
  apply h
  have h2 := congrArg String.data hc
  simp at h2
  simp [h2]

/-- The function `path.Clean` never returns the empty string. -/
theorem Clean_ne_empty (s : String) : Clean s ≠ "" := by
  unfold Clean
  by_cases h1 : s = ""
  · rw [if_pos h1]; decide
  rw [if_neg h1]
  simp only []
  split_ifs with h2 h3 h4
  · decide
  · exact mk_ne_empty _ h3
  · decide
  · exact mk_ne_empty _ h4

theorem IsAbs_mk (l : List Char) : IsAbs (String.mk l) = (l.head? == some '/') := rfl

/-- The function `path.Clean` returns an absolute path exactly for an absolute path. -/
theorem IsAbs_Clean (s : String) : IsAbs (Clean s) = IsAbs s := by
  unfold Clean
  by_cases h1 : s = ""
  · rw [if_pos h1, h1]; decide
  rw [if_neg h1]
  simp only []
  by_cases h2 : (s.data.head? == some '/') = true
  · rw [if_pos h2]
    have hr := cleanLoop_rooted s.data.length s.data.tail ['/'] rfl
    have hlen : ¬ (cleanLoop true s.data.length s.data.tail ['/'] 1).length = 0 := by
      intro hc
      rw [List.length_eq_zero] at hc
      rw [hc] at hr
      simp at hr
    rw [h2, if_neg hlen, IsAbs_mk, hr]
    unfold IsAbs
    rw [h2]
    rfl
  · rw [if_neg h2]
    have h2f : (s.data.head? == some '/') = false := by simpa using h2
    have hr := cleanLoop_unrooted s.data.length s.data [] 0 (by simp)
    have hs : IsAbs s = false := h2f
    rw [hs, h2f]
    split_ifs with h3
    · decide
    · rw [IsAbs_mk]
      simpa using hr

theorem joinBuf_nil (e : String) : joinBuf [] e = e.data := by
  unfold joinBuf
  by_cases h : e = ""
  · simp [h]
  · simp [h]

theorem eq_empty_iff_data (s : String) : s = "" ↔ s.data = [] := by
  constructor
  · intro h; rw [h]
  · intro h
    cases s
    simp at h
    simp [h]

theorem length_pos_of_ne_empty (s : String) (h : s ≠ "") : 0 < s.length := by
  have h2 : s.data ≠ [] := fun hd => h ((eq_empty_iff_data s).2 hd)
  have h3 : s.length = s.data.length := rfl
  rw [h3]
  exact List.length_pos.2 h2

/-- Joining onto a non-empty first element cleans the two elements put together
with a slash between them. -/
theorem Join_pair (a b : String) (ha : a ≠ "") :
    Join [a, b] = Clean (String.mk (a.data ++ '/' :: b.data)) := by
  have hl : ¬ (a.length + (b.length + 0) = 0) := by
    have := length_pos_of_ne_empty a ha
    omega
  have ha2 : a.data ≠ [] := fun h => ha ((eq_empty_iff_data a).2 h)
  have hpos : a.data.length > 0 := List.length_pos.2 ha2
  unfold Join
  simp only [List.map_cons, List.map_nil, List.sum_cons, List.sum_nil, List.foldl_cons,
    List.foldl_nil, joinBuf_nil, if_neg hl]
  unfold joinBuf
  rw [if_pos (Or.inl hpos), if_pos hpos]
  simp

/-- Joining two elements gives an absolute path exactly when the first non-empty one is absolute. -/
theorem IsAbs_Join (a b : String) :
    IsAbs (Join [a, b]) = if a = "" then IsAbs b else IsAbs a := by
  unfold Join
  simp only [List.map_cons, List.map_nil, List.sum_cons, List.sum_nil, List.foldl_cons,
    List.foldl_nil, joinBuf_nil]
  by_cases ha : a = ""
  · subst ha
    by_cases hb : b = ""
    · subst hb
      decide
    · have hl : ¬ ("".length + (b.length + 0) = 0) := by
        have := length_pos_of_ne_empty b hb
        omega
      rw [if_neg hl, IsAbs_Clean, IsAbs_mk]
      simp [joinBuf, hb, IsAbs]
  · have ha2 : a.data ≠ [] := fun h => ha ((eq_empty_iff_data a).2 h)
    have hl : ¬ (a.length + (b.length + 0) = 0) := by
      have := length_pos_of_ne_empty a ha
      omega
    rw [if_neg hl, if_neg ha, IsAbs_Clean, IsAbs_mk]
    unfold joinBuf IsAbs
    have hpos : a.data.length > 0 := List.length_pos.2 ha2
    simp only [hpos, true_or, if_true]
    cases hd : a.data with
    | nil => exact absurd hd ha2
    | cons x xs => simp

/-- The index search never returns less than the index found so far. -/
theorem lastIndexFrom_ge (c : Char) (l : List Char) : ∀ (i : Nat) (acc : Int),
    acc ≤ i → acc ≤ lastIndexFrom c l i acc := by
  induction l with
  | nil => intro i acc h; simp [lastIndexFrom]
  | cons x xs ih =>
    intro i acc h
    unfold lastIndexFrom
    split_ifs with hx
    · have := ih (i + 1) (i : Int) (by push_cast; omega)
      omega
    · exact ih (i + 1) acc (by push_cast; omega)

/-- The directory of a path is absolute exactly when the path is. -/
theorem IsAbs_Dir (f : String) : IsAbs (Dir f) = IsAbs f := by
  unfold Dir
  simp only []
  rw [IsAbs_Clean, IsAbs_mk]
  unfold IsAbs
  cases hd : f.data with
  | nil => simp
  | cons x xs =>
    by_cases hx : x = '/'
    · subst hx
      have h := lastIndexFrom_ge '/' xs 1 0 (by norm_num)
      have h2 : lastIndexFrom '/' ('/' :: xs) 0 (-1) = lastIndexFrom '/' xs 1 0 := by
        simp [lastIndexFrom]
      rw [h2]
      have h3 : 1 ≤ (lastIndexFrom '/' xs 1 0 + 1).toNat := by omega
      rw [head?_take h3]
    · cases hk : (lastIndexFrom '/' (x :: xs) 0 (-1) + 1).toNat with
      | zero => simp [hx]
      | succ k => simp [hx]

/-- The function `path.Dir` never returns the empty string. -/
theorem Dir_ne_empty (f : String) : Dir f ≠ "" := Clean_ne_empty _


theorem length_dropWhile_le (c : Char) (t : List Char) (h : c ≠ '/') :
    ((c :: t).dropWhile (fun x => x ≠ '/')).length ≤ t.length := by
  rw [List.dropWhile_cons]
  simp only [ne_eq, h, not_false_eq_true, decide_True, if_true]
  exact (List.dropWhile_sublist _).length_le

/-- The loop of `path.Clean` does not depend on its fuel once the fuel covers the unread input:
with the fuel `Clean` gives it, the loop always runs to the end of the input. -/
theorem cleanLoop_fuel (rooted : Bool) (fuel : Nat) : ∀ (fuel2 : Nat) (rest out : List Char)
    (dotdot : Nat), rest.length ≤ fuel → rest.length ≤ fuel2 →
    cleanLoop rooted fuel rest out dotdot = cleanLoop rooted fuel2 rest out dotdot := by
  induction fuel with
  | zero =>
    intro fuel2 rest out dotdot h1 h2
    have hr : rest = [] := List.length_eq_zero.1 (by omega)
    subst hr
    cases fuel2 <;> simp [cleanLoop]
  | succ fuel ih =>
    intro fuel2 rest out dotdot h1 h2
    cases rest with
    | nil => cases fuel2 <;> simp [cleanLoop]
    | cons c t =>
      cases fuel2 with
      | zero => simp at h2
      | succ fuel2 =>
        simp only [List.length_cons, Nat.add_le_add_iff_right] at h1 h2
        have ht : t.tail.length ≤ t.length := by simp
        unfold cleanLoop
        simp only []
        by_cases hc : c = '/'
        · rw [if_pos hc, if_pos hc]
          exact ih _ _ _ _ h1 h2
        rw [if_neg hc, if_neg hc]
        have hd := length_dropWhile_le c t hc
        split_ifs
        all_goals exact ih _ _ _ _ (by omega) (by omega)

/-! ## Path resolution -/

/-- C8, as stated, fails: with the relative configuration file path
`autorestic.yml`, and with the empty one, the relative path `rel/x` is resolved
without error to `rel/x`, which is not absolute. -/
theorem GetPathRelativeToConfig_relative_config :
    GetPathRelativeToConfig "autorestic.yml" ("/home/u", none) "rel/x" = ("rel/x", none)
    ∧ GetPathRelativeToConfig "" ("/home/u", none) "rel/x" = ("rel/x", none)
    ∧ IsAbs "rel/x" = false := by
  decide

/-- C8, amended: the path `GetPathRelativeToConfig` returns is absolute exactly
when the base it is resolved against is absolute: always for an absolute `p`;
for a `p` that starts with `~`, when the home directory returned by the lookup
is absolute (when that directory is the empty string, when the rest of `p`
after the marker is absolute); for any other `p`, when the configuration file
path is absolute. -/
theorem GetPathRelativeToConfig_absolute (cf : String) (hd : String × GoError) (p : String) :
    IsAbs (GetPathRelativeToConfig cf hd p).1 =
      if IsAbs p then true
      else if HasPrefix p "~" then
        (if hd.1 = "" then IsAbs (TrimPrefix p "~") else IsAbs hd.1)
      else IsAbs cf := by
  unfold GetPathRelativeToConfig
  by_cases h1 : IsAbs p = true
  · simp [h1]
  · by_cases h2 : HasPrefix p "~" = true
    · simp only [h1, h2, if_true, if_false, Bool.false_eq_true]
      exact IsAbs_Join hd.1 (TrimPrefix p "~")
    · simp only [h1, h2, if_false, Bool.false_eq_true]
      rw [IsAbs_Join, if_neg (Dir_ne_empty cf), IsAbs_Dir]

/-- C9: `GetPathRelativeToConfig` follows the three-case rule: an absolute `p`
is returned as it is, character for character; for a `p` that starts with `~`
the result is the home directory joined (`path.Join`) with `p` less its first
character, that is, for a non-empty home directory, the cleaned form of home,
a slash and the rest of `p`; any other `p` is joined onto the directory
(`path.Dir`) of the configuration file, that is, the cleaned form of that
directory, a slash and `p`. So `/a/b` gives `/a/b`; `~/x` with home `/home/u`
gives `/home/u/x`; `rel/x` with the configuration file `/cfg/autorestic.yml`
gives `/cfg/rel/x`. -/
theorem GetPathRelativeToConfig_three_cases :
    (∀ (cf : String) (hd : String × GoError) (p : String),
      IsAbs p = true → GetPathRelativeToConfig cf hd p = (p, none))
    ∧ (∀ (cf : String) (hd : String × GoError) (p : String),
      IsAbs p = false → HasPrefix p "~" = true →
      GetPathRelativeToConfig cf hd p = (Join [hd.1, String.mk (p.data.drop 1)], hd.2)
      ∧ (hd.1 ≠ "" → (GetPathRelativeToConfig cf hd p).1
          = Clean (String.mk (hd.1.data ++ '/' :: p.data.drop 1))))
    ∧ (∀ (cf : String) (hd : String × GoError) (p : String),
      IsAbs p = false → HasPrefix p "~" = false →
      GetPathRelativeToConfig cf hd p = (Join [Dir cf, p], none)
      ∧ (GetPathRelativeToConfig cf hd p).1 = Clean (String.mk ((Dir cf).data ++ '/' :: p.data)))
    ∧ GetPathRelativeToConfig "/cfg/autorestic.yml" ("/home/u", none) "/a/b" = ("/a/b", none)
    ∧ GetPathRelativeToConfig "/cfg/autorestic.yml" ("/home/u", none) "~/x"
        = ("/home/u/x", none)
    ∧ GetPathRelativeToConfig "/cfg/autorestic.yml" ("/home/u", none) "rel/x"
        = ("/cfg/rel/x", none) := by
  refine ⟨?_, ?_, ?_, by decide, by decide, by decide⟩
  · intro cf hd p h
    simp [GetPathRelativeToConfig, h]
  · intro cf hd p h1 h2
    have ht : TrimPrefix p "~" = String.mk (p.data.drop 1) := by
      unfold TrimPrefix
      rw [if_pos h2]
      rfl
    have he : GetPathRelativeToConfig cf hd p
        = (Join [hd.1, String.mk (p.data.drop 1)], hd.2) := by
      simp [GetPathRelativeToConfig, h1, h2, ht]
    refine ⟨he, ?_⟩
    intro hne
    rw [he]
    exact Join_pair hd.1 _ hne
  · intro cf hd p h1 h2
    have he : GetPathRelativeToConfig cf hd p = (Join [Dir cf, p], none) := by
      simp [GetPathRelativeToConfig, h1, h2]
    refine ⟨he, ?_⟩
    rw [he]
    exact Join_pair (Dir cf) p (Dir_ne_empty cf)

/-- Witness of C9: the absolute path `/a/b/../c` comes back character for
character, not normalised; `~x` with home `/home/u` is joined to `/home/u/x`;
`./rel/../x` is joined onto `/cfg` and gives `/cfg/x`. -/
theorem GetPathRelativeToConfig_three_cases_witness :
    GetPathRelativeToConfig "/cfg/autorestic.yml" ("/home/u", none) "/a/b/../c"
        = ("/a/b/../c", none)
    ∧ GetPathRelativeToConfig "/cfg/autorestic.yml" ("/home/u", none) "~x"
        = (Join ["/home/u", String.mk ("~x".data.drop 1)], none)
    ∧ GetPathRelativeToConfig "/cfg/autorestic.yml" ("/home/u", none) "./rel/../x"
        = (Join [Dir "/cfg/autorestic.yml", "./rel/../x"], none)
    ∧ Join ["/home/u", String.mk ("~x".data.drop 1)] = "/home/u/x"
    ∧ Join [Dir "/cfg/autorestic.yml", "./rel/../x"] = "/cfg/x" :=
  ⟨GetPathRelativeToConfig_three_cases.1 "/cfg/autorestic.yml" ("/home/u", none) "/a/b/../c" rfl,
    (GetPathRelativeToConfig_three_cases.2.1 "/cfg/autorestic.yml" ("/home/u", none) "~x"
      rfl rfl).1,
    (GetPathRelativeToConfig_three_cases.2.2.1 "/cfg/autorestic.yml" ("/home/u", none)
      "./rel/../x" rfl rfl).1,
    by decide, by decide⟩

/-- C10: `GetPathRelativeToConfig` returns an error iff `p` is not absolute,
starts with `~`, and the home-directory lookup fails; the error is then the
one of the lookup, and for an absolute `p` and for a `p` that does not start
with `~` the error is nil whatever the lookup would return. -/
theorem GetPathRelativeToConfig_error (cf : String) (hd : String × GoError) (p : String) :
    ((GetPathRelativeToConfig cf hd p).2 ≠ none
      ↔ (IsAbs p = false ∧ HasPrefix p "~" = true ∧ hd.2 ≠ none))
    ∧ (GetPathRelativeToConfig cf hd p).2
        = (if IsAbs p = false ∧ HasPrefix p "~" = true then hd.2 else none) := by
  unfold GetPathRelativeToConfig
  by_cases h1 : IsAbs p = true
  · simp [h1]
  · by_cases h2 : HasPrefix p "~" = true
    · simp [h1, h2]
    · simp [h1, h2]

/-! ## Validation -/

/-- The validation loop ends without error iff every entry validates. -/
theorem validateLoop_none {α : Type} (setName : α → String → α) (validate : α → GoError)
    (tag : String → Entity) (l : List (String × α)) : ∀ (log : List Entity),
    (validateLoop setName validate tag l log).1 = none
      ↔ ∀ e ∈ l, validate (setName e.2 e.1) = none := by
  induction l with
  | nil => intro log; simp [validateLoop]
  | cons e rest ih =>
    intro log
    obtain ⟨name, x⟩ := e
    unfold validateLoop
    cases hv : validate (setName x name) with
    | none => simp [hv, ih]
    | some err => simp [hv]

/-- When every entry validates, the validation loop logs every entry, in order. -/
theorem validateLoop_all {α : Type} (setName : α → String → α) (validate : α → GoError)
    (tag : String → Entity) (l : List (String × α)) : ∀ (log : List Entity),
    (∀ e ∈ l, validate (setName e.2 e.1) = none) →
    validateLoop setName validate tag l log = (none, log ++ l.map (fun e => tag e.1)) := by
  induction l with
  | nil => intro log _; simp [validateLoop]
  | cons e rest ih =>
    intro log h
    obtain ⟨name, x⟩ := e
    have hx : validate (setName x name) = none := h (name, x) (List.mem_cons_self _ _)
    unfold validateLoop
    simp only [hx]
    rw [ih _ (fun e he => h e (List.mem_cons_of_mem _ he))]
    simp

/-- The validation loop returns the error of the first entry that does not
validate and logs the entries up to that one and no further. -/
theorem validateLoop_first {α : Type} (setName : α → String → α) (validate : α → GoError)
    (tag : String → Entity) (pre post : List (String × α)) (name : String) (x : α)
    (err : String) (log : List Entity)
    (hpre : ∀ e ∈ pre, validate (setName e.2 e.1) = none)
    (hx : validate (setName x name) = some err) :
    validateLoop setName validate tag (pre ++ (name, x) :: post) log
      = (some err, log ++ pre.map (fun e => tag e.1) ++ [tag name]) := by
  induction pre generalizing log with
  | nil => simp [validateLoop, hx]
  | cons e rest ih =>
    obtain ⟨n, y⟩ := e
    have hy : validate (setName y n) = none := hpre (n, y) (List.mem_cons_self _ _)
    simp only [List.cons_append]
    unfold validateLoop
    simp only [hy]
    rw [ih _ (fun e he => hpre e (List.mem_cons_of_mem _ he))]
    simp

/-- A list with an entry that does not validate splits at the first such entry. -/
theorem exists_first_invalid {α : Type} (setName : α → String → α) (validate : α → GoError)
    (l : List (String × α)) (h : ∃ e ∈ l, validate (setName e.2 e.1) ≠ none) :
    ∃ pre name x post err, l = pre ++ (name, x) :: post
      ∧ (∀ e ∈ pre, validate (setName e.2 e.1) = none)
      ∧ validate (setName x name) = some err := by
  induction l with
  | nil => simp at h
  | cons e rest ih =>
    obtain ⟨name, x⟩ := e
    cases hv : validate (setName x name) with
    | some err => exact ⟨[], name, x, rest, err, rfl, by simp, hv⟩
    | none =>
      have h2 : ∃ e ∈ rest, validate (setName e.2 e.1) ≠ none := by
        obtain ⟨e, he, hne⟩ := h
        rcases List.mem_cons.1 he with rfl | hmem
        · exact absurd hv hne
        · exact ⟨e, hmem, hne⟩
      obtain ⟨pre, n, y, post, err, hl, hpre, hy⟩ := ih h2
      refine ⟨(name, x) :: pre, n, y, post, err, by simp [hl], ?_, hy⟩
      intro e he
      rcases List.mem_cons.1 he with rfl | hmem
      · exact hv
      · exact hpre e hmem

/-- The function `CheckConfig` on a loaded configuration with a callable engine. -/
theorem CheckConfig_loaded (c : Config) (bin : String)
    (vb : Backend → GoError) (vl : Location → GoError) :
    CheckConfig (some c) true bin vb vl
      = match validateLoop (fun backend name => { backend with name := name }) vb
          Entity.backend c.Backends.entries [] with
        | (some err, log) => (some err, log)
        | (none, log) =>
          validateLoop (fun location name => { location with name := name }) vl
            Entity.location c.Locations.entries log := by
  simp [CheckConfig]

/-- C11: `CheckConfig` returns no error iff the configuration was loaded (the
pointer is not nil), the engine is callable, every Backend of the model, named
after its key, validates and every Location of the model, named after its key,
validates. -/
theorem CheckConfig_ok_iff (c : Option Config) (callable : Bool) (bin : String)
    (vb : Backend → GoError) (vl : Location → GoError) :
    (CheckConfig c callable bin vb vl).1 = none
      ↔ ∃ cfg, c = some cfg ∧ callable = true
          ∧ (∀ e ∈ cfg.Backends.entries, vb { e.2 with name := e.1 } = none)
          ∧ (∀ e ∈ cfg.Locations.entries, vl { e.2 with name := e.1 } = none) := by
  cases c with
  | none => simp [CheckConfig]
  | some cfg =>
    cases callable with
    | false => simp [CheckConfig]
    | true =>
      rw [CheckConfig_loaded]
      have hb := validateLoop_none (fun (backend : Backend) name => { backend with name := name })
        vb Entity.backend cfg.Backends.entries []
      cases hr : validateLoop (fun (backend : Backend) name => { backend with name := name })
          vb Entity.backend cfg.Backends.entries [] with
      | mk err log =>
        rw [hr] at hb
        cases err with
        | some e =>
          have hnb : ¬ ∀ e ∈ cfg.Backends.entries, vb { e.2 with name := e.1 } = none := by
            intro hall
            have := hb.2 hall
            simp at this
          simp only [Option.some.injEq, true_and, exists_eq_left', reduceCtorEq, false_iff]
          rintro ⟨h1, _⟩
          exact hnb h1
        | none =>
          have hall := hb.1 rfl
          simp only [Option.some.injEq, true_and, exists_eq_left']
          rw [validateLoop_none]
          constructor
          · intro h
            exact ⟨hall, h⟩
          · intro h
            exact h.2

/-- C18: `CheckConfig` is fail-fast and reports one failure, in a fixed
precedence. A nil configuration is reported whatever the engine check and the
validators would say, and a non-callable engine is reported with no entity
validated. Otherwise the error is the `validate` error of the first Backend,
in visiting order, that does not validate (whether or not Locations are
invalid too), no later Backend and no Location being validated; and when
every Backend validates, it is the `validate` error of the first Location
that does not validate, no later Location being validated. -/
theorem CheckConfig_fail_fast :
    (∀ (callable : Bool) (bin : String) (vb : Backend → GoError) (vl : Location → GoError),
      CheckConfig none callable bin vb vl = (some "config could not be loaded/found", []))
    ∧ (∀ (c : Config) (bin : String) (vb : Backend → GoError) (vl : Location → GoError),
      CheckConfig (some c) false bin vb vl
        = (some (bin
            ++ " was not found. Install either with \"autorestic install\" or manually"), []))
    ∧ (∀ (c : Config) (bin : String) (vb : Backend → GoError) (vl : Location → GoError)
        (pre post : List (String × Backend)) (name : String) (b : Backend) (err : String),
      c.Backends.entries = pre ++ (name, b) :: post →
      (∀ e ∈ pre, vb { e.2 with name := e.1 } = none) →
      vb { b with name := name } = some err →
      CheckConfig (some c) true bin vb vl
        = (some err, pre.map (fun e => Entity.backend e.1) ++ [Entity.backend name]))
    ∧ (∀ (c : Config) (bin : String) (vb : Backend → GoError) (vl : Location → GoError),
      (∃ e ∈ c.Backends.entries, vb { e.2 with name := e.1 } ≠ none) →
      ∃ e ∈ c.Backends.entries, vb { e.2 with name := e.1 } ≠ none
        ∧ (CheckConfig (some c) true bin vb vl).1 = vb { e.2 with name := e.1 })
    ∧ (∀ (c : Config) (bin : String) (vb : Backend → GoError) (vl : Location → GoError)
        (pre post : List (String × Location)) (name : String) (l : Location) (err : String),
      (∀ e ∈ c.Backends.entries, vb { e.2 with name := e.1 } = none) →
      c.Locations.entries = pre ++ (name, l) :: post →
      (∀ e ∈ pre, vl { e.2 with name := e.1 } = none) →
      vl { l with name := name } = some err →
      CheckConfig (some c) true bin vb vl
        = (some err, c.Backends.entries.map (fun e => Entity.backend e.1)
            ++ pre.map (fun e => Entity.location e.1) ++ [Entity.location name]))
    ∧ (∀ (c : Config) (bin : String) (vb : Backend → GoError) (vl : Location → GoError),
      (∀ e ∈ c.Backends.entries, vb { e.2 with name := e.1 } = none) →
      (∃ e ∈ c.Locations.entries, vl { e.2 with name := e.1 } ≠ none) →
      ∃ e ∈ c.Locations.entries, vl { e.2 with name := e.1 } ≠ none
        ∧ (CheckConfig (some c) true bin vb vl).1 = vl { e.2 with name := e.1 }) := by
  have hB : ∀ (c : Config) (bin : String) (vb : Backend → GoError) (vl : Location → GoError)
      (pre post : List (String × Backend)) (name : String) (b : Backend) (err : String),
      c.Backends.entries = pre ++ (name, b) :: post →
      (∀ e ∈ pre, vb { e.2 with name := e.1 } = none) →
      vb { b with name := name } = some err →
      CheckConfig (some c) true bin vb vl
        = (some err, pre.map (fun e => Entity.backend e.1) ++ [Entity.backend name]) := by
    intro c bin vb vl pre post name b err hl hpre hb
    rw [CheckConfig_loaded, hl,
      validateLoop_first (fun (backend : Backend) name => { backend with name := name }) vb
        Entity.backend pre post name b err [] hpre hb]
    simp
  have hL : ∀ (c : Config) (bin : String) (vb : Backend → GoError) (vl : Location → GoError)
      (pre post : List (String × Location)) (name : String) (l : Location) (err : String),
      (∀ e ∈ c.Backends.entries, vb { e.2 with name := e.1 } = none) →
      c.Locations.entries = pre ++ (name, l) :: post →
      (∀ e ∈ pre, vl { e.2 with name := e.1 } = none) →
      vl { l with name := name } = some err →
      CheckConfig (some c) true bin vb vl
        = (some err, c.Backends.entries.map (fun e => Entity.backend e.1)
            ++ pre.map (fun e => Entity.location e.1) ++ [Entity.location name]) := by
    intro c bin vb vl pre post name l err hall hl hpre hx
    rw [CheckConfig_loaded,
      validateLoop_all (fun (backend : Backend) name => { backend with name := name }) vb
        Entity.backend c.Backends.entries [] hall, hl]
    simp only [List.nil_append]
    rw [validateLoop_first (fun (location : Location) name => { location with name := name }) vl
        Entity.location pre post name l err _ hpre hx]
  refine ⟨?_, ?_, hB, ?_, hL, ?_⟩
  · intro callable bin vb vl
    rfl
  · intro c bin vb vl
    rfl
  · intro c bin vb vl h
    obtain ⟨pre, name, b, post, err, hl, hpre, hb⟩ :=
      exists_first_invalid (fun (backend : Backend) name => { backend with name := name }) vb
        c.Backends.entries h
    refine ⟨(name, b), ?_, ?_, ?_⟩
    · rw [hl]; simp
    · simp [hb]
    · rw [hB c bin vb vl pre post name b err hl hpre hb, hb]
  · intro c bin vb vl hall h
    obtain ⟨pre, name, l, post, err, hl, hpre, hx⟩ :=
      exists_first_invalid (fun (location : Location) name => { location with name := name }) vl
        c.Locations.entries h
    refine ⟨(name, l), ?_, ?_, ?_⟩
    · rw [hl]; simp
    · simp [hx]
    · rw [hL c bin vb vl pre post name l err hall hl hpre hx, hx]

/-- Witness of C18: in the configuration whose Backend `bad` has no type and
whose Location `docs` has no source path, the error is the one of the Backend
`bad`, and the Location is not validated; with the Backend `bad` removed, the
error is the one of the Location `docs`. -/
theorem CheckConfig_fail_fast_witness :
    CheckConfig (some brokenConfig) true "restic" Backend.validate
        (Location.validate brokenConfig.Backends)
      = (some "Backend \"bad\" has no \"type\"",
          [("good", goodBackend)].map (fun e => Entity.backend e.1) ++ [Entity.backend "bad"])
    ∧ CheckConfig (some brokenLocationConfig) true "restic" Backend.validate
        (Location.validate brokenLocationConfig.Backends)
      = (some "Location \"docs\" is missing \"from\" key",
          brokenLocationConfig.Backends.entries.map (fun e => Entity.backend e.1)
            ++ ([] : List (String × Location)).map (fun e => Entity.location e.1)
            ++ [Entity.location "docs"]) :=
  ⟨CheckConfig_fail_fast.2.2.1 brokenConfig "restic" Backend.validate
      (Location.validate brokenConfig.Backends) [("good", goodBackend)] [] "bad" badBackend
      "Backend \"bad\" has no \"type\"" rfl (by decide) (by decide),
    CheckConfig_fail_fast.2.2.2.2.1 brokenLocationConfig "restic" Backend.validate
      (Location.validate brokenLocationConfig.Backends) [] [] "docs" badLocation
      "Location \"docs\" is missing \"from\" key" (by decide) rfl (by decide) (by decide)⟩

/-! ## Option resolution: buckets, values and flag names -/

/-- The tokens of one key are a flag and a value for every value other than `true`. -/
theorem foldl_appendValue_pairs (k : String) (vs : List Value)
    (h : ∀ v ∈ vs, v ≠ Value.bool true) :
    vs.foldl (appendValue k) [] = vs.flatMap (fun v => [optionToString k, Sprint v]) := by
  induction vs using List.reverseRecOn with
  | nil => rfl
  | append_singleton vs v ih =>
    have hv : v ≠ Value.bool true := h v (by simp)
    rw [List.foldl_append, ih (fun x hx => h x (by simp [hx])), List.flatMap_append]
    simp only [List.foldl_cons, List.foldl_nil, List.flatMap_cons, List.flatMap_nil,
      List.append_nil]
    unfold appendValue
    cases v with
    | bool b =>
      cases b with
      | true => exact absurd rfl hv
      | false => simp [Value.assertBool]
    | int i => simp [Value.assertBool]
    | str s => simp [Value.assertBool]
    | other t => simp [Value.assertBool]

/-- The tokens of a sequence of entries are the tokens of each entry, in order. -/
theorem tokens_eq_flatMap (l : List (String × List Value)) :
    tokens l = l.flatMap (fun kv => kv.2.foldl (appendValue kv.1) []) := by
  induction l with
  | nil => rfl
  | cons kv rest ih => rw [tokens_cons, ih, List.flatMap_cons]

/-- Visiting the entries in another order permutes the tokens. -/
theorem tokens_perm (l1 l2 : List (String × List Value)) (h : l1.Perm l2) :
    (tokens l1).Perm (tokens l2) := by
  rw [tokens_eq_flatMap, tokens_eq_flatMap]
  exact h.flatMap_right _

/-- The function `getOptions` for a non-empty command key. -/
theorem getOptions_of_ne (options : Options) (key : String) (h : key ≠ "") :
    getOptions options key
      = appendOptionsToSlice [] (options.index "all")
        ++ appendOptionsToSlice [] (options.index key) := by
  unfold getOptions
  simp only [bne_iff_ne, ne_eq, h, not_false_eq_true, if_true]
  simp only [List.cons_append, List.nil_append, List.foldl_cons, List.foldl_nil]
  rw [appendOptionsToSlice_eq (appendOptionsToSlice [] (options.index "all")),
    appendOptionsToSlice_eq [] (options.index key)]
  simp

/-- The function `getOptions` for the empty command key. -/
theorem getOptions_empty (options : Options) :
    getOptions options "" = appendOptionsToSlice [] (options.index "all") := by
  simp [getOptions]

/-- A bucket that is missing from the options renders to nothing. -/
theorem appendOptionsToSlice_missing (options : Options) (key : String)
    (h : options.get? key = none) :
    appendOptionsToSlice [] (options.index key) = [] := by
  simp [Options.index, h, GoMap.empty, appendOptionsToSlice]

/-- A string has a one-character prefix iff that character is its first. -/
theorem HasPrefix_char (s : String) (c : Char) :
    HasPrefix s (String.mk [c]) = true ↔ s.data.head? = some c := by
  unfold HasPrefix
  cases hd : s.data with
  | nil => simp only [List.isPrefixOf, List.head?_nil]; simp
  | cons x xs =>
    simp only [List.isPrefixOf, Bool.and_true, beq_iff_eq, List.head?_cons, Option.some.injEq]
    exact eq_comm

/-- The function `optionToString` by the first character of the flag name. -/
theorem optionToString_eq (s : String) :
    optionToString s = if s.data.head? = some '-' then s else "--" ++ s := by
  unfold optionToString
  have h := HasPrefix_char s '-'
  have hd : String.mk ['-'] = "-" := rfl
  rw [hd] at h
  by_cases hp : HasPrefix s "-" = true
  · rw [if_pos (h.1 hp)]
    simp [hp]
  · have hn : ¬ s.data.head? = some '-' := fun hh => hp (h.2 hh)
    rw [if_neg hn]
    simp [hp]

/-- A name written after two dashes starts with a dash. -/
theorem head?_dashes (s : String) : ("--" ++ s).data.head? = some '-' := by
  have : ("--" ++ s).data = '-' :: '-' :: s.data := by
    simp [String.data_append]
  rw [this]
  rfl

/-- C12: for every option scope and every non-empty command key (in
particular every key other than `all`), `getOptions` is the rendering of the
`all` bucket followed by the rendering of the bucket of the command, so that
every token of the command comes after every token of `all`; a bucket that is
missing contributes nothing. -/
theorem getOptions_all_then_command (options : Options) (key : String) (hkey : key ≠ "") :
    getOptions options key
      = appendOptionsToSlice [] (options.index "all")
        ++ appendOptionsToSlice [] (options.index key)
    ∧ (options.get? "all" = none →
        getOptions options key = appendOptionsToSlice [] (options.index key))
    ∧ (options.get? key = none →
        getOptions options key = appendOptionsToSlice [] (options.index "all")) := by
  refine ⟨getOptions_of_ne options key hkey, ?_, ?_⟩
  · intro h
    rw [getOptions_of_ne options key hkey, appendOptionsToSlice_missing options "all" h]
    rfl
  · intro h
    rw [getOptions_of_ne options key hkey, appendOptionsToSlice_missing options key h]
    simp

/-- Witness of C12: with the buckets `all: {x: [1]}` and `backup: {tag: [a]}`
the key `backup` gives `--x 1 --tag a`, and the key `forget`, which has no
bucket, gives `--x 1`. -/
theorem getOptions_all_then_command_witness :
    (getOptions sampleOptions "backup"
        = appendOptionsToSlice [] (sampleOptions.index "all")
          ++ appendOptionsToSlice [] (sampleOptions.index "backup")
      ∧ (sampleOptions.get? "all" = none →
          getOptions sampleOptions "backup"
            = appendOptionsToSlice [] (sampleOptions.index "backup"))
      ∧ (sampleOptions.get? "backup" = none →
          getOptions sampleOptions "backup"
            = appendOptionsToSlice [] (sampleOptions.index "all")))
    ∧ getOptions sampleOptions "backup" = ["--x", "1", "--tag", "a"]
    ∧ getOptions sampleOptions "forget" = ["--x", "1"] :=
  ⟨getOptions_all_then_command sampleOptions "backup" (by decide), by decide, by decide⟩

/-- C13: in an OptionMap where the key `k` has the values `vs`, none of them a
boolean, `appendOptionsToSlice` writes for that key the normalised flag
followed by the text of the value, once for every value and in the order of
the values: `2 * vs.length` tokens, after the tokens of the entries visited
before `k` and before the tokens of the entries visited after it. -/
theorem appendOptionsToSlice_values (m : OptionMap) (k : String) (vs : List Value)
    (before after : List (String × List Value)) (str : List String)
    (h : m.entries = before ++ (k, vs) :: after)
    (hvs : ∀ v ∈ vs, ∀ b, v ≠ Value.bool b) :
    appendOptionsToSlice str m
      = str ++ tokens before ++ vs.flatMap (fun v => [optionToString k, Sprint v])
          ++ tokens after
    ∧ (vs.flatMap (fun v => [optionToString k, Sprint v])).length = 2 * vs.length := by
  constructor
  · rw [appendOptionsToSlice_eq, h, tokens_append, tokens_cons]
    simp only []
    rw [foldl_appendValue_pairs k vs (fun v hv => hvs v hv true)]
    simp
  · clear h hvs
    induction vs with
    | nil => rfl
    | cons v rest ih =>
      simp only [List.flatMap_cons, List.length_append, List.length_cons, List.length_nil, ih]
      omega

/-- Witness of C13: `{tag: [a, 7, b]}` yields `--tag a --tag 7 --tag b`. -/
theorem appendOptionsToSlice_values_witness :
    (appendOptionsToSlice []
        (GoMap.single "tag" [Value.str "a", Value.int 7, Value.str "b"])
      = [] ++ tokens []
          ++ [Value.str "a", Value.int 7, Value.str "b"].flatMap
              (fun v => [optionToString "tag", Sprint v])
          ++ tokens []
      ∧ ([Value.str "a", Value.int 7, Value.str "b"].flatMap
          (fun v => [optionToString "tag", Sprint v])).length = 2 * 3)
    ∧ appendOptionsToSlice []
        (GoMap.single "tag" [Value.str "a", Value.int 7, Value.str "b"])
      = ["--tag", "a", "--tag", "7", "--tag", "b"] :=
  ⟨appendOptionsToSlice_values
      (GoMap.single "tag" [Value.str "a", Value.int 7, Value.str "b"]) "tag"
      [Value.str "a", Value.int 7, Value.str "b"] [] [] [] rfl (by decide),
    by decide⟩

/-- C14: `optionToString s` is `s` when `s` starts with a dash and `--`
followed by `s` otherwise, the empty name giving `--`; so the result always
starts with a dash, and `optionToString` is idempotent. -/
theorem optionToString_normalises (s : String) :
    optionToString s = (if s.data.head? = some '-' then s else "--" ++ s)
    ∧ optionToString "" = "--"
    ∧ (optionToString s).data.head? = some '-'
    ∧ HasPrefix (optionToString s) "-" = true
    ∧ optionToString (optionToString s) = optionToString s := by
  have hstart : (optionToString s).data.head? = some '-' := by
    rw [optionToString_eq]
    by_cases h : s.data.head? = some '-'
    · rw [if_pos h]; exact h
    · rw [if_neg h]; exact head?_dashes s
  refine ⟨optionToString_eq s, by decide, hstart, ?_, ?_⟩
  · have h := HasPrefix_char (optionToString s) '-'
    exact h.2 hstart
  · rw [optionToString_eq (optionToString s), if_pos hstart]

/-- The loops of `appendOptionsToSlice` over a visiting order append the
tokens of that order to the slice. -/
theorem appendVisited_eq (str : List String) (visit : List (String × List Value)) :
    appendVisited str visit = str ++ tokens visit :=
  foldl_entries visit str

/-- With every `range` in the order of the map, `getOptionsVisiting` is `getOptions`. -/
theorem getOptionsVisiting_storedOrder (options : Options) (key : String) :
    getOptionsVisiting storedOrder options key = getOptions options key := by
  unfold getOptionsVisiting getOptions storedOrder appendVisited appendOptionsToSlice
  by_cases h : key = ""
  · simp [h, List.enum, List.enumFrom]
  · simp [h, List.enum, List.enumFrom]

/-- The function `getOptionsVisiting` for the empty command key. -/
theorem getOptionsVisiting_empty
    (orders : Nat → List (String × List Value) → List (String × List Value))
    (options : Options) :
    getOptionsVisiting orders options "" = tokens (orders 0 (options.index "all").entries) := by
  unfold getOptionsVisiting
  simp [List.enum, List.enumFrom, appendVisited_eq]

/-- The function `getOptionsVisiting` for a non-empty command key. -/
theorem getOptionsVisiting_of_ne
    (orders : Nat → List (String × List Value) → List (String × List Value))
    (options : Options) (key : String) (h : key ≠ "") :
    getOptionsVisiting orders options key
      = tokens (orders 0 (options.index "all").entries)
        ++ tokens (orders 1 (options.index key).entries) := by
  unfold getOptionsVisiting
  simp [h, List.enum, List.enumFrom, appendVisited_eq]

/-- The flag of a key that has a value is among the tokens of the key. -/
theorem flag_mem_foldl (k : String) (vs : List Value) (v : Value) (hv : v ∈ vs) :
    optionToString k ∈ vs.foldl (appendValue k) [] := by
  cases vs with
  | nil => simp at hv
  | cons x rest =>
    rw [List.foldl_cons, foldl_appendValue]
    apply List.mem_append_left
    unfold appendValue
    split
    split <;> simp

/-- The flag of an entry that has a value is among the tokens of the entries. -/
theorem flag_mem_tokens (l : List (String × List Value)) (kv : String × List Value)
    (hkv : kv ∈ l) (v : Value) (hv : v ∈ kv.2) :
    optionToString kv.1 ∈ tokens l := by
  rw [tokens_eq_flatMap, List.mem_flatMap]
  exact ⟨kv, hkv, flag_mem_foldl kv.1 kv.2 v hv⟩

/-- C19: `getOptions` does not deduplicate the scope keys. For the command key
`all` the bucket `all` is rendered twice, each `range` in a visiting order of
its own, so the result has exactly twice as many tokens as for the empty key
and holds every token twice as often, the flag of every entry of the bucket
that has a value at least twice; for the empty key only the bucket `all` is
rendered, once. With the bucket `{a: [1], b: [2]}` the empty key gives
`--a 1 --b 2`, and the key `all` gives `--a 1 --b 2 --a 1 --b 2` when both
renderings follow the same order and `--a 1 --b 2 --b 2 --a 1` when the second
one runs backwards. -/
theorem getOptions_all_twice :
    (∀ (options : Options)
        (orders : Nat → List (String × List Value) → List (String × List Value)),
      (∀ i l, (orders i l).Perm l) →
      getOptionsVisiting orders options ""
          = tokens (orders 0 (options.index "all").entries)
      ∧ getOptionsVisiting orders options "all"
          = tokens (orders 0 (options.index "all").entries)
            ++ tokens (orders 1 (options.index "all").entries)
      ∧ (∀ (orders2 : Nat → List (String × List Value) → List (String × List Value)),
          (∀ i l, (orders2 i l).Perm l) →
          (getOptionsVisiting orders options "all").length
              = 2 * (getOptionsVisiting orders2 options "").length
          ∧ ∀ t, (getOptionsVisiting orders options "all").count t
              = 2 * (getOptionsVisiting orders2 options "").count t)
      ∧ (∀ (m : OptionMap), options.get? "all" = some m →
          ∀ kv ∈ m.entries, ∀ v ∈ kv.2,
            1 ≤ (getOptionsVisiting orders options "").count (optionToString kv.1)
            ∧ 2 ≤ (getOptionsVisiting orders options "all").count (optionToString kv.1)))
    ∧ (∀ (options : Options) (key : String),
        getOptions options key = getOptionsVisiting storedOrder options key)
    ∧ getOptions twoFlagOptions "" = ["--a", "1", "--b", "2"]
    ∧ getOptions twoFlagOptions "all" = ["--a", "1", "--b", "2", "--a", "1", "--b", "2"]
    ∧ getOptionsVisiting secondReversed twoFlagOptions ""
        = ["--a", "1", "--b", "2"]
    ∧ getOptionsVisiting secondReversed twoFlagOptions "all"
        = ["--a", "1", "--b", "2", "--b", "2", "--a", "1"] := by
  refine ⟨?_, fun options key => (getOptionsVisiting_storedOrder options key).symm,
    by decide, by decide, by decide, by decide⟩
  intro options orders hperm
  have h1 := getOptionsVisiting_empty orders options
  have h2 := getOptionsVisiting_of_ne orders options "all" (by decide)
  have hp0 := tokens_perm _ _ (hperm 0 (options.index "all").entries)
  have hp1 := tokens_perm _ _ (hperm 1 (options.index "all").entries)
  refine ⟨h1, h2, ?_, ?_⟩
  · intro orders2 hperm2
    have hq := tokens_perm _ _ (hperm2 0 (options.index "all").entries)
    rw [h2, getOptionsVisiting_empty orders2 options]
    constructor
    · rw [List.length_append, hp0.length_eq, hp1.length_eq, hq.length_eq]
      omega
    · intro t
      rw [List.count_append, hp0.count_eq, hp1.count_eq, hq.count_eq]
      omega
  · intro m hm kv hkv v hv
    have hidx : (options.index "all").entries = m.entries := by
      simp [Options.index, hm]
    have hmem : optionToString kv.1 ∈ tokens m.entries := flag_mem_tokens m.entries kv hkv v hv
    have hc : 1 ≤ (tokens m.entries).count (optionToString kv.1) :=
      List.count_pos_iff.2 hmem
    rw [h1, h2, List.count_append, hp0.count_eq, hp1.count_eq, hidx]
    constructor
    · exact hc
    · omega

/-- Witness of C19: with the bucket `{a: [1], b: [2]}` and a second rendering
that runs backwards, the key `all` gives the eight tokens
`--a 1 --b 2 --b 2 --a 1`, twice the four tokens of the empty key, with the
flag `--b` in it twice. -/
theorem getOptions_all_twice_witness :
    getOptionsVisiting secondReversed twoFlagOptions "all"
        = tokens (secondReversed 0 (twoFlagOptions.index "all").entries)
          ++ tokens (secondReversed 1 (twoFlagOptions.index "all").entries)
    ∧ (getOptionsVisiting secondReversed twoFlagOptions "all").length
        = 2 * (getOptionsVisiting storedOrder twoFlagOptions "").length
    ∧ (getOptionsVisiting secondReversed twoFlagOptions "all").count "--b"
        = 2 * (getOptionsVisiting storedOrder twoFlagOptions "").count "--b"
    ∧ tokens (secondReversed 1 (twoFlagOptions.index "all").entries) = ["--b", "2", "--a", "1"]
    ∧ (getOptionsVisiting secondReversed twoFlagOptions "all").length = 8
    ∧ (getOptionsVisiting secondReversed twoFlagOptions "all").count "--b" = 2 :=
  ⟨(getOptions_all_twice.1 twoFlagOptions secondReversed
      (fun i l => by
        unfold secondReversed
        split
        · exact List.reverse_perm l
        · exact List.Perm.refl l)).2.1,
    ((getOptions_all_twice.1 twoFlagOptions secondReversed
      (fun i l => by
        unfold secondReversed
        split
        · exact List.reverse_perm l
        · exact List.Perm.refl l)).2.2.1 storedOrder (fun _ l => List.Perm.refl l)).1,
    ((getOptions_all_twice.1 twoFlagOptions secondReversed
      (fun i l => by
        unfold secondReversed
        split
        · exact List.reverse_perm l
        · exact List.Perm.refl l)).2.2.1 storedOrder (fun _ l => List.Perm.refl l)).2 "--b",
    by decide, by decide, by decide⟩

/-! ## Selection: the unknown name -/

/-- The loop over the requested tokens returns the error of the first token
whose bare name is not in the list. -/
theorem checkSelected_first (backends : Bool) (list pre post : List String) (s : String)
    (hpre : ∀ x ∈ pre, bareName x ∈ list) (hs : bareName s ∉ list) :
    checkSelected backends list (pre ++ s :: post)
      = some ((if backends then "invalid backend \"" else "invalid location \"")
          ++ s ++ "\"") := by
  induction pre with
  | nil =>
    simp only [List.nil_append]
    unfold checkSelected
    have h2 : ¬ ∃ x, x ∈ list ∧ x = bareName s := by
      rintro ⟨x, hx, rfl⟩
      exact hs hx
    simp only [Split_head, List.any_eq_true, beq_iff_eq, h2, if_false]
    cases backends <;> simp
  | cons x rest ih =>
    have hx : bareName x ∈ list := hpre x (List.mem_cons_self _ _)
    have h2 : ∃ y, y ∈ list ∧ y = bareName x := ⟨_, hx, rfl⟩
    simp only [List.cons_append]
    unfold checkSelected
    simp only [Split_head, List.any_eq_true, beq_iff_eq, h2, if_true]
    exact ih (fun y hy => hpre y (List.mem_cons_of_mem _ hy))

/-- C17: with the `all` flag unset, when some requested token has a bare name
that is not a candidate, `GetAllOrSelected` returns no selection (the nil
slice) and an error that quotes the first such token of the request, in
request order, whole, with its `@qualifier`, after the words `invalid backend`
in backend mode and `invalid location` in location mode, whatever the tokens
after it are. -/
theorem GetAllOrSelected_invalid (c : Config) (cmd : Command) (backends : Bool)
    (pre post : List String) (s : String)
    (hall : cmd.all = false)
    (hreq : requested cmd backends = pre ++ s :: post)
    (hpre : ∀ x ∈ pre, bareName x ∈ candidates c backends)
    (hs : bareName s ∉ candidates c backends) :
    GetAllOrSelected (some c) cmd backends
      = some ([], some ((if backends then "invalid backend \"" else "invalid location \"")
          ++ s ++ "\"")) := by
  rw [GetAllOrSelected_unset c cmd backends hall, hreq,
    checkSelected_first backends _ pre post s hpre hs]

/-- Witness of C17: with the single Backend `a`, the request
`["a@prod", "zz@x", "yy"]` fails on `zz@x`, the first unknown token; with the
single Location `home`, the request `["docs@old"]` fails as a location. -/
theorem GetAllOrSelected_invalid_witness :
    GetAllOrSelected (some sampleConfig) ⟨false, ["a@prod", "zz@x", "yy"], []⟩ true
        = some ([], some ((if true then "invalid backend \"" else "invalid location \"")
            ++ "zz@x" ++ "\""))
    ∧ GetAllOrSelected (some sampleConfig) ⟨false, ["a@prod", "zz@x", "yy"], []⟩ true
        = some ([], some "invalid backend \"zz@x\"")
    ∧ GetAllOrSelected (some sampleConfig) ⟨false, [], ["docs@old"]⟩ false
        = some ([], some "invalid location \"docs@old\"") :=
  ⟨GetAllOrSelected_invalid sampleConfig ⟨false, ["a@prod", "zz@x", "yy"], []⟩ true
      ["a@prod"] ["yy"] "zz@x" rfl rfl (by decide) (by decide),
    by decide, by decide⟩

/-! ## Path resolution: the home marker -/

/-- C20: the home marker is the bare character `~`: a `p` that starts with
`~`, whatever follows it, is not absolute and is resolved to the home
directory joined (`path.Join`) with `p` less its first character, whatever the
configuration file is. So `~other/x` with home `/home/u` gives
`/home/u/other/x`, and `~x` gives `/home/u/x`. -/
theorem GetPathRelativeToConfig_home_marker (cf : String) (hd : String × GoError) (p : String)
    (hp : p.data.head? = some '~') :
    IsAbs p = false
    ∧ GetPathRelativeToConfig cf hd p = (Join [hd.1, String.mk p.data.tail], hd.2)
    ∧ (∀ cf2, GetPathRelativeToConfig cf2 hd p = GetPathRelativeToConfig cf hd p) := by
  have habs : IsAbs p = false := by
    unfold IsAbs
    rw [hp]
    decide
  have hpre : HasPrefix p "~" = true := (HasPrefix_char p '~').2 hp
  have ht : TrimPrefix p "~" = String.mk p.data.tail := by
    unfold TrimPrefix
    rw [if_pos hpre]
    have : "~".data.length = 1 := rfl
    rw [this, List.drop_one]
  have he : ∀ cf2, GetPathRelativeToConfig cf2 hd p
      = (Join [hd.1, String.mk p.data.tail], hd.2) := by
    intro cf2
    simp [GetPathRelativeToConfig, habs, hpre, ht]
  refine ⟨habs, he cf, ?_⟩
  intro cf2
  rw [he cf2, he cf]

/-- Witness of C20: `~other/x` with home `/home/u` gives `/home/u/other/x`,
not a path under the directory `/cfg` of the configuration file and not one
under the home of a user `other`. -/
theorem GetPathRelativeToConfig_home_marker_witness :
    (IsAbs "~other/x" = false
      ∧ GetPathRelativeToConfig "/cfg/autorestic.yml" ("/home/u", none) "~other/x"
          = (Join ["/home/u", String.mk "~other/x".data.tail], none)
      ∧ (∀ cf2, GetPathRelativeToConfig cf2 ("/home/u", none) "~other/x"
          = GetPathRelativeToConfig "/cfg/autorestic.yml" ("/home/u", none) "~other/x"))
    ∧ GetPathRelativeToConfig "/cfg/autorestic.yml" ("/home/u", none) "~other/x"
        = ("/home/u/other/x", none)
    ∧ GetPathRelativeToConfig "/cfg/autorestic.yml" ("/home/u", none) "~x"
        = ("/home/u/x", none) :=
  ⟨GetPathRelativeToConfig_home_marker "/cfg/autorestic.yml" ("/home/u", none) "~other/x" rfl,
    by decide, by decide⟩

/-! ## Loading -/

/-- Once the variable `config` is set or the guard has fired, `GetConfig`
returns the variable and leaves the state as it is. -/
theorem GetConfig_settled (w : World) (st : Proc)
    (h : st.config.isSome = true ∨ st.onceDone = true) :
    GetConfig w st = Outcome.returned st.config st := by
  unfold GetConfig
  by_cases hc : st.config.isNone = true
  · rw [if_pos hc]
    rcases h with h | h
    · rw [Option.isNone_iff_eq_none] at hc
      rw [hc] at h
      simp at h
    · rw [if_pos h]
  · rw [if_neg hc]

/-- One call of `GetConfig` runs each step at most once. -/
theorem GetConfig_counts (w : World) (st : Proc) :
    (GetConfig w st).state.reads ≤ st.reads + 1
    ∧ (GetConfig w st).state.envLoads ≤ st.envLoads + 1
    ∧ (GetConfig w st).state.parses ≤ st.parses + 1 := by
  unfold GetConfig
  by_cases hc : st.config.isNone = true
  · rw [if_pos hc]
    by_cases hd : st.onceDone = true
    · rw [if_pos hd]
      simp [Outcome.state]
    · rw [if_neg hd]
      cases hr : w.readOk <;> cases hl : w.cronLean <;> cases hp : w.parsed <;>
        simp [Outcome.state]
  · rw [if_neg hc]
    simp [Outcome.state]

/-- A call of `GetConfig` that returns leaves the variable `config` set or the
guard fired, and returns the variable. -/
theorem GetConfig_returned (w : World) (st st2 : Proc) (cfg : Option Config)
    (h : GetConfig w st = Outcome.returned cfg st2) :
    cfg = st2.config ∧ (st2.config.isSome = true ∨ st2.onceDone = true) := by
  unfold GetConfig at h
  by_cases hc : st.config.isNone = true
  · rw [if_pos hc] at h
    by_cases hd : st.onceDone = true
    · rw [if_pos hd] at h
      injection h with h1 h2
      subst h2
      exact ⟨h1.symm, Or.inr hd⟩
    · rw [if_neg hd] at h
      cases hr : w.readOk with
      | false =>
        simp only [hr, Bool.false_eq_true, if_false] at h
        injection h with h1 h2
        subst h2
        exact ⟨h1.symm, Or.inr rfl⟩
      | true =>
        simp only [hr, if_true] at h
        cases hp : w.parsed with
        | none => simp [hp] at h
        | some c =>
          simp only [hp] at h
          injection h with h1 h2
          subst h2
          exact ⟨h1.symm, Or.inr (by cases w.cronLean <;> rfl)⟩
  · rw [if_neg hc] at h
    injection h with h1 h2
    subst h2
    refine ⟨h1.symm, Or.inl ?_⟩
    cases hcfg : st.config with
    | none => simp [hcfg] at hc
    | some c => rfl

/-- From a state where the variable `config` is set or the guard has fired,
every call of a sequence returns the variable and the state stays as it is. -/
theorem callsOfGetConfig_settled (ws : List World) (st : Proc)
    (h : st.config.isSome = true ∨ st.onceDone = true) :
    callsOfGetConfig ws st = (List.replicate ws.length st.config, st) := by
  induction ws with
  | nil => rfl
  | cons w ws ih =>
    unfold callsOfGetConfig
    rw [GetConfig_settled w st h]
    simp only [ih, List.length_cons, List.replicate_succ]

/-- A sequence of calls of `GetConfig` runs each step at most once. -/
theorem callsOfGetConfig_counts (ws : List World) (st : Proc) :
    (callsOfGetConfig ws st).2.reads ≤ st.reads + 1
    ∧ (callsOfGetConfig ws st).2.envLoads ≤ st.envLoads + 1
    ∧ (callsOfGetConfig ws st).2.parses ≤ st.parses + 1 := by
  cases ws with
  | nil => simp [callsOfGetConfig]
  | cons w ws =>
    have hcount := GetConfig_counts w st
    unfold callsOfGetConfig
    cases hg : GetConfig w st with
    | exited st2 =>
      rw [hg] at hcount
      simpa [Outcome.state] using hcount
    | returned cfg st2 =>
      rw [hg] at hcount
      have hs := (GetConfig_returned w st st2 cfg hg).2
      simp only [callsOfGetConfig_settled ws st2 hs]
      simpa [Outcome.state] using hcount

/-- C15: in every sequence of calls of `GetConfig` in one process, from any
state of the guard and the variable and whatever the collaborators would
answer at each call, the steps `viper.ReadInConfig`, `godotenv.Load` and
`viper.UnmarshalExact` run at most once each in total; and when the first
call returns, every later call returns the same value and leaves the state as
the first call left it, so that nothing is read again. From the start of the
process: when the first read fails every call returns nil after one read, and
when the file is read and parses to `c` every call returns `c` after one read
and one parse. -/
theorem GetConfig_once :
    (∀ (ws : List World) (st : Proc),
      (callsOfGetConfig ws st).2.reads ≤ st.reads + 1
      ∧ (callsOfGetConfig ws st).2.envLoads ≤ st.envLoads + 1
      ∧ (callsOfGetConfig ws st).2.parses ≤ st.parses + 1)
    ∧ (∀ (w : World) (ws : List World) (st st2 : Proc) (cfg : Option Config),
      GetConfig w st = Outcome.returned cfg st2 →
      callsOfGetConfig (w :: ws) st = (cfg :: List.replicate ws.length cfg, st2))
    ∧ (∀ (w : World) (ws : List World), w.readOk = false →
      callsOfGetConfig (w :: ws) initialProc
        = (none :: List.replicate ws.length none,
            { onceDone := true, config := none, reads := 1, envLoads := 0, parses := 0 }))
    ∧ (∀ (w : World) (ws : List World) (c : Config), w.readOk = true → w.parsed = some c →
      callsOfGetConfig (w :: ws) initialProc
        = (some c :: List.replicate ws.length (some c),
            { onceDone := true, config := some c, reads := 1,
              envLoads := if w.cronLean then 0 else 1, parses := 1 })) := by
  have hB : ∀ (w : World) (ws : List World) (st st2 : Proc) (cfg : Option Config),
      GetConfig w st = Outcome.returned cfg st2 →
      callsOfGetConfig (w :: ws) st = (cfg :: List.replicate ws.length cfg, st2) := by
    intro w ws st st2 cfg h
    have hs := GetConfig_returned w st st2 cfg h
    unfold callsOfGetConfig
    rw [h]
    simp only [callsOfGetConfig_settled ws st2 hs.2, hs.1]
  refine ⟨callsOfGetConfig_counts, hB, ?_, ?_⟩
  · intro w ws hr
    apply hB
    simp [GetConfig, initialProc, hr]
  · intro w ws c hr hp
    apply hB
    cases hl : w.cronLean <;> simp [GetConfig, initialProc, hr, hp, hl]

/-- Witness of C15: from the start of a process, three calls of which the
first finds no configuration file return nil three times after a single read,
also when the file could be read at the later calls. -/
theorem GetConfig_once_witness :
    GetConfig unreadableWorld initialProc
        = Outcome.returned none
            { onceDone := true, config := none, reads := 1, envLoads := 0, parses := 0 }
    ∧ callsOfGetConfig [unreadableWorld, loadableWorld, loadableWorld] initialProc
        = (none :: List.replicate [loadableWorld, loadableWorld].length none,
            { onceDone := true, config := none, reads := 1, envLoads := 0, parses := 0 }) :=
  ⟨rfl,
    GetConfig_once.2.1 unreadableWorld [loadableWorld, loadableWorld] initialProc
      { onceDone := true, config := none, reads := 1, envLoads := 0, parses := 0 } none rfl⟩

/-! ## Saving -/

/-- C16: whenever the backup copy (`CopyFile` of the configuration file to
`<file>.old`) fails, `SaveConfig` returns the error of the copy and does
nothing more: the settings of the persistence layer are as before, no key
having been set, and the file system is as `CopyFile` left it, the
configuration not having been written, whatever the model to save and the
behaviour of `WriteConfig` are. When the failed copy has not touched the
configuration file itself, that file is unchanged. -/
theorem SaveConfig_backup_failure (file : String)
    (CopyFile : FS → String → String → FS × GoError)
    (WriteConfig : List (String × Setting) → FS → FS × GoError)
    (c : Option Config) (s : Sys) (err : String)
    (hcopy : (CopyFile s.fs file (file ++ ".old")).2 = some err) :
    SaveConfig file CopyFile WriteConfig c s
      = some (some err,
          { fs := (CopyFile s.fs file (file ++ ".old")).1, settings := s.settings })
    ∧ (∀ (WriteConfig2 : List (String × Setting) → FS → FS × GoError) (c2 : Option Config),
        SaveConfig file CopyFile WriteConfig2 c2 s = SaveConfig file CopyFile WriteConfig c s)
    ∧ ((CopyFile s.fs file (file ++ ".old")).1.lookup file = s.fs.lookup file →
        ∃ r, SaveConfig file CopyFile WriteConfig c s = some (some err, r)
          ∧ r.fs.lookup file = s.fs.lookup file ∧ r.settings = s.settings) := by
  have he : ∀ (W : List (String × Setting) → FS → FS × GoError) (c2 : Option Config),
      SaveConfig file CopyFile W c2 s
        = some (some err,
            { fs := (CopyFile s.fs file (file ++ ".old")).1, settings := s.settings }) := by
    intro W c2
    unfold SaveConfig
    cases hr : CopyFile s.fs file (file ++ ".old") with
    | mk fs e =>
      rw [hr] at hcopy
      simp only at hcopy
      subst hcopy
      rfl
  refine ⟨he WriteConfig c, ?_, ?_⟩
  · intro W2 c2
    rw [he W2 c2, he WriteConfig c]
  · intro hframe
    exact ⟨_, he WriteConfig c, hframe, rfl⟩

/-- Witness of C16: with a copy that fails for lack of space, saving
`sampleConfig` returns that error and leaves the configuration file and the
settings as they were. -/
theorem SaveConfig_backup_failure_witness :
    SaveConfig "autorestic.yml" failingCopy sampleWrite (some sampleConfig) sampleSys
      = some (some "no space left on device",
          { fs := (failingCopy sampleSys.fs "autorestic.yml" ("autorestic.yml" ++ ".old")).1,
            settings := sampleSys.settings })
    ∧ (failingCopy sampleSys.fs "autorestic.yml" ("autorestic.yml" ++ ".old")).1
        = [("autorestic.yml", "locations: \x7b\x7d")] :=
  ⟨(SaveConfig_backup_failure "autorestic.yml" failingCopy sampleWrite (some sampleConfig)
      sampleSys "no space left on device" rfl).1,
    rfl⟩

end Autorestic
